import Mathlib

/-!
Verification development for the Mongo data-export utility (`src/app.py`).

The program is a single synchronous pipeline triggered by one button press:

  parse filter (json.loads with bson.json_util.object_hook)
  → connect (pymongo.MongoClient + server_info)
  → query (collection.find, fully materialized)
  → normalize (pd.DataFrame on the record list, clean_data)
  → export (to_csv / to_excel into an in-memory buffer, seek(0)).

This file gives a shallow embedding of that pipeline:

* `PyValue` models the dynamically typed Python values flowing through the
  program (JSON scalars, lists, dicts, and bson `ObjectId`).
* `parseJValue` models CPython's `json.loads`, parameterized by the
  `object_hook` exactly as the real decoder is: the hook runs bottom-up on
  every decoded object literal, during parsing.  `object_hook` models
  `bson.json_util.object_hook` (dispatch on the first key found in the
  parser table; the table is modelled by the representative subset
  {"$oid", "$numberLong"} of `json_util._PARSERS`, each faithful to its
  CPython counterpart, including the errors it raises).
* `dataFrameOfRecords` models `pd.DataFrame(list_of_dicts)` (columns are the
  union of keys in first-seen order, missing cells are the NaN marker),
  `clean_data` is the helper from app.py line 46.
* `to_csv` models `DataFrame.to_csv(index=...)` with QUOTE_MINIMAL quoting;
  `parseCsv` is an RFC-4180-style reader used to state round-trip facts.
  `to_excel` models the workbook structurally (a single sheet of header and
  typed cells); openpyxl's binary serialization is not modelled.
* `run` models the whole button handler, with an `Env` supplying the results
  of the network-facing calls.  `st.stop()` is modelled by its documented
  contract (execution halts); exception classification follows the
  `except` chain of app.py lines 118-132.

Floating point numbers are kept at the lexical level (the decimal literal
text): no claim here depends on float arithmetic.
-/

/-- A dynamically typed Python value as it flows through app.py: the result of
JSON decoding (possibly through `bson.json_util.object_hook`), a Mongo record
field, or a DataFrame cell.  `float` keeps the decimal literal lexically.
`oid` is a bson `ObjectId`, carrying its 24-digit lowercase hex form. -/
inductive PyValue where
  | none
  | bool (b : Bool)
  | int (n : Int)
  | float (lit : String)
  | str (s : String)
  | list (xs : List PyValue)
  | dict (fields : List (String × PyValue))
  | oid (hex : String)
deriving Repr

/-- Decimal digits of a natural number, as characters (most significant first). -/
def natDigits (n : Nat) : List Char :=
  (Nat.toDigits 10 n)

/-- Python `str()` of an integer. -/
def intStr (n : Int) : String :=
  if n < 0 then String.mk ('-' :: natDigits n.natAbs) else String.mk (natDigits n.natAbs)

mutual
/-- Python `str(v)`: the rendering used by `DataFrame.astype(str)` and by
`to_csv` for object cells.  For containers Python's `str` falls back to
`repr`, rendered by `pyRepr`/`pyReprFields`.  String-escaping inside `repr`
of strings is not modelled (no claim depends on it). -/
def pyStr : PyValue → String
  | .none => "None"
  | .bool true => "True"
  | .bool false => "False"
  | .int n => intStr n
  | .float lit => lit
  | .str s => s
  | .list xs => "[" ++ pyReprList xs ++ "]"
  | .dict fs => "\x7b" ++ pyReprFields fs ++ "\x7d"
  | .oid h => h

/-- Python `repr(v)`, used for elements nested inside containers. -/
def pyRepr : PyValue → String
  | .str s => "\x27" ++ s ++ "\x27"
  | .oid h => "ObjectId(\x27" ++ h ++ "\x27)"
  | v => pyStr v

/-- Comma-separated `repr` of list elements. -/
def pyReprList : List PyValue → String
  | [] => ""
  | [x] => pyRepr x
  | x :: xs => pyRepr x ++ ", " ++ pyReprList xs

/-- Comma-separated `repr k : repr v` of dict members. -/
def pyReprFields : List (String × PyValue) → String
  | [] => ""
  | [(k, v)] => pyRepr (.str k) ++ ": " ++ pyRepr v
  | (k, v) :: fs => pyRepr (.str k) ++ ": " ++ pyRepr v ++ ", " ++ pyReprFields fs
end

/-- A Mongo document as returned by `collection.find`: an insertion-ordered
mapping from field name to value. -/
abbrev Record : Type := List (String × PyValue)

/-- The keys of a record, in order. -/
def recordKeys (r : Record) : List String := r.map Prod.fst

/-- Dict lookup on a record; `Option.none` plays the role of a missing key
(pandas fills such cells with NaN). -/
def lookupField (r : Record) (k : String) : Option PyValue :=
  match r.find? (fun p => p.1 = k) with
  | Option.none => Option.none
  | Option.some p => Option.some p.2

/-- A DataFrame cell: `Option.none` is the NaN marker pandas uses for a key
absent from a record. -/
abbrev Cell : Type := Option PyValue

/-- The pandas DataFrame as app.py uses it: named columns over aligned rows. -/
structure DataFrame where
  columns : List String
  rows : List (List Cell)

/-- Appends to `acc` the keys of one record that are not yet present,
preserving their order: one step of pandas' column discovery over a list of
dicts. -/
def addNewKeys (acc : List String) : List String → List String
  | [] => acc
  | k :: ks => if k ∈ acc then addNewKeys acc ks else addNewKeys (acc ++ [k]) ks

/-- Column discovery of `pd.DataFrame(records)`: the union of all record keys
in first-seen order. -/
def collectColumns (records : List Record) : List String :=
  records.foldl (fun acc r => addNewKeys acc (recordKeys r)) []

/-- The model of `pd.DataFrame(data)` for a list of dict records (app.py line
89): columns are the first-seen union of keys, and every row is aligned to the
full column list, absent keys becoming the NaN marker. -/
def dataFrameOfRecords (records : List Record) : DataFrame :=
  let cols := collectColumns records
  { columns := cols
    rows := records.map (fun r => cols.map (fun c => lookupField r c)) }

/-- Keeps the first occurrence of every element, in order: the specification's
"union of keys observed across records, in first-occurrence order". -/
def dedupFirst : List String → List String
  | [] => []
  | x :: xs => x :: dedupFirst (xs.filter (fun y => y ≠ x))
termination_by l => l.length
decreasing_by
  simpa using Nat.lt_succ_of_le (List.length_filter_le _ _)

/-- Python `str()` of a DataFrame cell; pandas renders the NaN marker of a
missing value as "nan" under `astype(str)`. -/
def cellStr : Cell → String
  | Option.none => "nan"
  | Option.some v => pyStr v

/-- One cell of `column.astype(str)`. -/
def astypeStrCell (c : Cell) : Cell := Option.some (.str (cellStr c))

/-- Applies `f` to the element at position `j`, leaving the rest unchanged. -/
def mapAt (j : Nat) (f : α → α) : List α → List α
  | [] => []
  | x :: xs =>
    match j with
    | 0 => f x :: xs
    | Nat.succ j => x :: mapAt j f xs

/-- The helper of app.py lines 46-50: converts the "_id" column (and only the
column named "_id") to strings via `astype(str)`; a frame with no "_id" column
is returned unchanged.  Columns of `dataFrameOfRecords` are unique, so acting
on the first position named "_id" is exact. -/
def clean_data (df : DataFrame) : DataFrame :=
  if "_id" ∈ df.columns then
    { df with rows := df.rows.map (mapAt (df.columns.indexOf "_id") astypeStrCell) }
  else df

/-- The cell of `df` at row `i`, column position `j`. -/
def getCell (df : DataFrame) (i j : Nat) : Option Cell :=
  (df.rows.get? i).bind (fun row => row.get? j)

/-! ### The JSON decoder (model of CPython `json.loads` with an object hook)

`json.loads(filter_input, object_hook=json_util.object_hook)` (app.py line 59)
decodes standard JSON and calls the hook, bottom-up, on every decoded object
literal.  A hook that raises propagates its exception out of `json.loads`
as-is: such an exception is NOT a `json.JSONDecodeError`, which matters for
the `except` chain of app.py.  The decoder below is parameterized by the hook
exactly as the library function is. -/

/-- An error escaping `json.loads`: either the decoder's own syntax error
(Python `json.JSONDecodeError`, with position and message) or an exception
raised by the object hook (e.g. `TypeError` from a malformed extended-type
tag).  Inside the parser the position is kept as the remaining-suffix length
and converted to an offset from the start at the top level. -/
inductive JErr where
  | syntaxErr (pos : Nat) (msg : String)
  | hookErr (msg : String)
deriving Repr, DecidableEq

/-- An object hook: receives the decoded members of one JSON object literal
and either produces the Python value for it or raises (Except.error). -/
def Hook : Type := List (String × PyValue) → Except String PyValue

/-- Decoding with no `object_hook` argument: every object literal simply
becomes a dict. -/
def plainHook : Hook := fun fs => .ok (.dict fs)

/-- JSON whitespace, as CPython's decoder skips it. -/
def isJsonWs (c : Char) : Bool := c = ' ' || c = '\t' || c = '\n' || c = '\r'

/-- Skips leading JSON whitespace. -/
def skipWs : List Char → List Char
  | [] => []
  | c :: cs => if isJsonWs c then skipWs cs else c :: cs

/-- Value of a hex digit, if the character is one. -/
def hexVal (c : Char) : Option Nat :=
  if c.isDigit then Option.some (c.toNat - '0'.toNat)
  else if 'a' ≤ c ∧ c ≤ 'f' then Option.some (c.toNat - 'a'.toNat + 10)
  else if 'A' ≤ c ∧ c ≤ 'F' then Option.some (c.toNat - 'A'.toNat + 10)
  else Option.none

/-- Value of a 4-hex-digit group, if all four characters are hex digits. -/
def hex4 (a b c d : Char) : Option Nat :=
  match hexVal a, hexVal b, hexVal c, hexVal d with
  | Option.some x, Option.some y, Option.some z, Option.some w =>
      Option.some (((x * 16 + y) * 16 + z) * 16 + w)
  | _, _, _, _ => Option.none

/-- The single-character JSON escapes. -/
def unescapeChar : Char → Option Char
  | '"' => Option.some '"'
  | '\\' => Option.some '\\'
  | '/' => Option.some '/'
  | 'b' => Option.some (Char.ofNat 8)
  | 'f' => Option.some (Char.ofNat 12)
  | 'n' => Option.some '\n'
  | 'r' => Option.some '\r'
  | 't' => Option.some '\t'
  | _ => Option.none

/-- Parses the body of a JSON string after the opening quote, in CPython's
strict mode: raw control characters are rejected, escapes are decoded, and
`\uXXXX` surrogate pairs are combined.  (CPython admits a lone surrogate into
the resulting `str`; Lean's `Char` cannot carry one, so that corner is
modelled as a decode error.) -/
def parseJString (acc : List Char) : List Char → Except JErr (String × List Char)
  | [] => .error (.syntaxErr 0 "Unterminated string starting at")
  | c :: rest =>
    if c = '"' then .ok (String.mk acc, rest)
    else if c = '\\' then
      match rest with
      | [] => .error (.syntaxErr 0 "Unterminated string starting at")
      | e :: rest2 =>
        if e = 'u' then
          match rest2 with
          | a :: b :: c2 :: d :: rest3 =>
            match hex4 a b c2 d with
            | Option.none => .error (.syntaxErr (rest3.length + 4) "Invalid \\uXXXX escape")
            | Option.some n =>
              if 0xD800 ≤ n ∧ n ≤ 0xDBFF then
                match rest3 with
                | '\\' :: 'u' :: a2 :: b2 :: c3 :: d2 :: rest4 =>
                  match hex4 a2 b2 c3 d2 with
                  | Option.some m =>
                    if 0xDC00 ≤ m ∧ m ≤ 0xDFFF then
                      parseJString
                        (acc ++ [Char.ofNat (0x10000 + (n - 0xD800) * 0x400 + (m - 0xDC00))])
                        rest4
                    else .error (.syntaxErr rest4.length "Unpaired surrogate (not modelled)")
                  | Option.none => .error (.syntaxErr rest4.length "Invalid \\uXXXX escape")
                | _ => .error (.syntaxErr rest3.length "Unpaired surrogate (not modelled)")
              else if 0xDC00 ≤ n ∧ n ≤ 0xDFFF then
                .error (.syntaxErr rest3.length "Unpaired surrogate (not modelled)")
              else parseJString (acc ++ [Char.ofNat n]) rest3
          | _ => .error (.syntaxErr rest2.length "Invalid \\uXXXX escape")
        else
          match unescapeChar e with
          | Option.some ch => parseJString (acc ++ [ch]) rest2
          | Option.none => .error (.syntaxErr (rest2.length + 1) "Invalid \\escape")
    else if c.toNat < 0x20 then
      .error (.syntaxErr (rest.length + 1) "Invalid control character")
    else parseJString (acc ++ [c]) rest

/-- Takes the longest run of decimal digits. -/
def takeDigits : List Char → List Char × List Char
  | [] => ([], [])
  | c :: cs =>
    if c.isDigit then
      let (ds, r) := takeDigits cs
      (c :: ds, r)
    else ([], c :: cs)

/-- Numeric value of a digit run. -/
def digitsVal (ds : List Char) : Nat :=
  ds.foldl (fun a c => a * 10 + (c.toNat - '0'.toNat)) 0

/-- Parses a JSON number exactly as CPython's NUMBER_RE matches one:
`-?(0|[1-9]digits)(.digits)?([eE][+-]?digits)?`, the optional groups consumed
only when complete.  A plain integer literal decodes to a Python int; any
fraction or exponent makes it a float (kept lexically). -/
def parseJNumber (cs : List Char) : Option (PyValue × List Char) :=
  let (neg, cs1) := match cs with
    | '-' :: r => (true, r)
    | _ => (false, cs)
  match cs1 with
  | c :: cs2 =>
    if c.isDigit then
      let (intDs, rest1) :=
        if c = '0' then (['0'], cs2)
        else
          let (ds, r) := takeDigits cs2
          (c :: ds, r)
      let (fracDs, rest2) :=
        match rest1 with
        | '.' :: r =>
          let (ds, r2) := takeDigits r
          if ds = [] then (([] : List Char), rest1) else ('.' :: ds, r2)
        | _ => ([], rest1)
      let (expDs, rest3) :=
        match rest2 with
        | e :: r =>
          if e = 'e' ∨ e = 'E' then
            let (sgn, r1) := match r with
              | s :: r2 => if s = '+' ∨ s = '-' then ([s], r2) else (([] : List Char), r)
              | [] => ([], r)
            let (ds, r2) := takeDigits r1
            if ds = [] then (([] : List Char), rest2) else (e :: (sgn ++ ds), r2)
          else ([], rest2)
        | [] => ([], rest2)
      if fracDs = [] ∧ expDs = [] then
        Option.some
          (.int (if neg then -(digitsVal intDs : Int) else (digitsVal intDs : Int)), rest1)
      else
        Option.some
          (.float (String.mk ((if neg then ['-'] else []) ++ intDs ++ fracDs ++ expDs)), rest3)
    else Option.none
  | [] => Option.none

/-- Replaces the value at an existing key (keeping its position) or appends:
Python dict insertion, one pair at a time. -/
def insertField (fs : List (String × PyValue)) (k : String) (v : PyValue) :
    List (String × PyValue) :=
  if fs.any (fun p => p.1 = k) then fs.map (fun p => if p.1 = k then (k, v) else p)
  else fs ++ [(k, v)]

/-- Builds the dict for a parsed member list: `dict(pairs)` — first-occurrence
key order, last value wins. -/
def dictOfPairs (pairs : List (String × PyValue)) : List (String × PyValue) :=
  pairs.foldl (fun fs p => insertField fs p.1 p.2) []

/-- Lifts the hook's result into the decoder's error type: a raising hook
aborts `json.loads` with the hook's own exception. -/
def liftHook (res : Except String PyValue) (rest : List Char) :
    Except JErr (PyValue × List Char) :=
  match res with
  | .ok v => .ok (v, rest)
  | .error m => .error (.hookErr m)

/-- The six fixed literals CPython's scanner recognizes at a value head. -/
inductive JLit where
  | nullLit
  | trueLit
  | falseLit
  | nanLit
  | infLit
  | negInfLit

/-- The Python value of a fixed literal (NaN and the infinities are float
constants, kept lexically). -/
def litVal : JLit → PyValue
  | .nullLit => .none
  | .trueLit => .bool true
  | .falseLit => .bool false
  | .nanLit => .float "nan"
  | .infLit => .float "inf"
  | .negInfLit => .float "-inf"

/-- The dispatch token at the head of a JSON value: what CPython's scanner
sees after skipping whitespace.  The carried lists are the input after the
consumed prefix. -/
inductive HeadTok where
  | endTok
  | litTok (lit : JLit) (r : List Char)
  | strTok (r : List Char)
  | arrTok (r : List Char)
  | objTok (r : List Char)
  | otherTok (c : Char) (r : List Char)

/-- Classifies the head of a value: one of the fixed literals (null, true,
false, NaN, Infinity, -Infinity), a string, an array, an object, or any
other leading character (candidate number or syntax error). -/
def headTok (cs : List Char) : HeadTok :=
  match skipWs cs with
  | [] => .endTok
  | 'n' :: 'u' :: 'l' :: 'l' :: r => .litTok .nullLit r
  | 't' :: 'r' :: 'u' :: 'e' :: r => .litTok .trueLit r
  | 'f' :: 'a' :: 'l' :: 's' :: 'e' :: r => .litTok .falseLit r
  | 'N' :: 'a' :: 'N' :: r => .litTok .nanLit r
  | 'I' :: 'n' :: 'f' :: 'i' :: 'n' :: 'i' :: 't' :: 'y' :: r => .litTok .infLit r
  | '-' :: 'I' :: 'n' :: 'f' :: 'i' :: 'n' :: 'i' :: 't' :: 'y' :: r => .litTok .negInfLit r
  | '"' :: r => .strTok r
  | '[' :: r => .arrTok r
  | '{' :: r => .objTok r
  | c :: r => .otherTok c r

/-- After an opening bracket or brace: either the matching closer follows
immediately (after whitespace), or there is content. -/
inductive BrTok where
  | close (r : List Char)
  | content (cs : List Char)

/-- Looks for an immediate closing character after whitespace. -/
def brTok (cl : Char) (cs : List Char) : BrTok :=
  match skipWs cs with
  | c :: r => if c = cl then .close r else .content (c :: r)
  | [] => .content []

/-- After a parsed element or member: a comma, the matching closer, or
anything else (a syntax error). -/
inductive SepTok where
  | commaTok (r : List Char)
  | closeTok (r : List Char)
  | otherSep (cs : List Char)

/-- Classifies what follows an element: comma, the closing character, or
unexpected input. -/
def sepTok (cl : Char) (cs : List Char) : SepTok :=
  match skipWs cs with
  | c :: r =>
    if c = ',' then .commaTok r
    else if c = cl then .closeTok r
    else .otherSep (c :: r)
  | [] => .otherSep []

/-- After an object key: the colon, or anything else (a syntax error). -/
inductive ColTok where
  | colonTok (r : List Char)
  | otherCol (cs : List Char)

/-- Classifies what follows an object key. -/
def colTok (cs : List Char) : ColTok :=
  match skipWs cs with
  | c :: r => if c = ':' then .colonTok r else .otherCol (c :: r)
  | [] => .otherCol []

mutual
/-- One JSON value (after optional whitespace), with the hook applied to every
object literal as it completes — the decoding step of app.py line 59. -/
def parseJValue (hook : Hook) : Nat → List Char → Except JErr (PyValue × List Char)
  | 0, _ => .error (.syntaxErr 0 "Fuel exhausted")
  | Nat.succ fuel, cs =>
    match headTok cs with
    | .endTok => .error (.syntaxErr 0 "Expecting value")
    | .litTok lit r => .ok (litVal lit, r)
    | .strTok r =>
      match parseJString [] r with
      | .error e => .error e
      | .ok (s, r2) => .ok (.str s, r2)
    | .arrTok r =>
      match brTok ']' r with
      | .close r2 => .ok (.list [], r2)
      | .content cs2 =>
        match parseJElems hook fuel cs2 with
        | .error e => .error e
        | .ok (vs, r2) => .ok (.list vs, r2)
    | .objTok r =>
      match brTok '}' r with
      | .close r2 => liftHook (hook []) r2
      | .content cs2 =>
        match parseJMembers hook fuel cs2 with
        | .error e => .error e
        | .ok (pairs, r2) => liftHook (hook (dictOfPairs pairs)) r2
    | .otherTok c r =>
      if c = '-' ∨ c.isDigit then
        match parseJNumber (c :: r) with
        | Option.some p => .ok p
        | Option.none => .error (.syntaxErr (r.length + 1) "Expecting value")
      else .error (.syntaxErr (r.length + 1) "Expecting value")

/-- One-or-more comma-separated array elements, up to the closing bracket. -/
def parseJElems (hook : Hook) : Nat → List Char → Except JErr (List PyValue × List Char)
  | 0, _ => .error (.syntaxErr 0 "Fuel exhausted")
  | Nat.succ fuel, cs =>
    match parseJValue hook fuel cs with
    | .error e => .error e
    | .ok (v, r) =>
      match sepTok ']' r with
      | .commaTok r2 =>
        match parseJElems hook fuel r2 with
        | .error e => .error e
        | .ok (vs, r3) => .ok (v :: vs, r3)
      | .closeTok r2 => .ok ([v], r2)
      | .otherSep r2 => .error (.syntaxErr r2.length "Expecting \x27,\x27 delimiter")

/-- One-or-more object members, up to the closing brace.  Returns the raw
pair list in source order; `dict(pairs)` and the hook are applied by the
caller, as CPython does. -/
def parseJMembers (hook : Hook) :
    Nat → List Char → Except JErr (List (String × PyValue) × List Char)
  | 0, _ => .error (.syntaxErr 0 "Fuel exhausted")
  | Nat.succ fuel, cs =>
    match cs with
    | c :: r =>
      if c = '"' then
        match parseJString [] r with
        | .error e => .error e
        | .ok (k, r1) =>
          match colTok r1 with
          | .colonTok r2 =>
            match parseJValue hook fuel r2 with
            | .error e => .error e
            | .ok (v, r3) =>
              match sepTok '}' r3 with
              | .commaTok r4 =>
                match parseJMembers hook fuel (skipWs r4) with
                | .error e => .error e
                | .ok (ps, r5) => .ok ((k, v) :: ps, r5)
              | .closeTok r4 => .ok ([(k, v)], r4)
              | .otherSep r4 =>
                .error (.syntaxErr r4.length "Expecting \x27,\x27 delimiter")
          | .otherCol r2 =>
            .error (.syntaxErr r2.length "Expecting \x27:\x27 delimiter")
      else
        .error (.syntaxErr (c :: r).length
          "Expecting property name enclosed in double quotes")
    | [] => .error (.syntaxErr 0 "Expecting property name enclosed in double quotes")
end

/-- The whole of `json.loads(s, object_hook=hook)`: decode one value, then
require only trailing whitespace.  Syntax-error positions are converted to
offsets from the start of the text. -/
def json_loads_with (hook : Hook) (s : String) : Except JErr PyValue :=
  match parseJValue hook (2 * s.data.length + 2) s.data with
  | .error (.syntaxErr rem msg) => .error (.syntaxErr (s.data.length - rem) msg)
  | .error e => .error e
  | .ok (v, rest) =>
    match skipWs rest with
    | [] => .ok v
    | r => .error (.syntaxErr (s.data.length - r.length) "Extra data")

/-- Plain `json.loads(s)`: the standard JSON decode. -/
def json_loads (s : String) : Except JErr PyValue := json_loads_with plainHook s

/-! ### The bson extended-JSON object hook (model of `bson.json_util.object_hook`)

`json_util.object_hook` scans the dict's keys in order for the first one in
its parser table and dispatches to that tag's parser; a dict with no
recognized tag passes through unchanged.  The table is modelled by the
representative tags "$oid" and "$numberLong"; each modelled parser mirrors
its pymongo counterpart, including the `TypeError` / `InvalidId` /
`ValueError` conditions it raises. -/

/-- The modelled subset of `bson.json_util._PARSERS_SET`. -/
def parsersSet : List String := ["$oid", "$numberLong"]

/-- Hex digit test for ObjectId validation. -/
def isHexDigitChar (c : Char) : Bool :=
  c.isDigit || ('a' ≤ c && c ≤ 'f') || ('A' ≤ c && c ≤ 'F')

/-- A valid `ObjectId` literal: exactly 24 hex digits. -/
def isHex24 (s : String) : Bool :=
  s.data.length = 24 && s.data.all isHexDigitChar

/-- ObjectId stores bytes; its canonical string form is lowercase hex. -/
def lowerHex (s : String) : String := String.mk (s.data.map Char.toLower)

/-- Model of `json_util._parse_canonical_oid` + the `ObjectId` constructor:
the dict must be exactly one field, its value a string of 24 hex digits;
otherwise the parser raises (`TypeError` / `InvalidId`). -/
def parseOidTag (fields : List (String × PyValue)) : Except String PyValue :=
  if fields.length ≠ 1 then .error "Bad $oid, extra field(s)"
  else
    match lookupField fields "$oid" with
    | Option.some (.str s) =>
      if isHex24 s then .ok (.oid (lowerHex s))
      else .error "InvalidId: not a valid ObjectId"
    | Option.some _ => .error "id must be an instance of str"
    | Option.none => .error "Bad $oid, missing value"

/-- Digits-only reading of a decimal string. -/
def decDigits? (cs : List Char) : Option Nat :=
  if cs = [] then Option.none
  else if cs.all Char.isDigit then Option.some (digitsVal cs) else Option.none

/-- Model of Python `int(s)` on a string: optional sign then digits.
(Surrounding whitespace and underscore separators are not modelled.) -/
def pyIntOfString (s : String) : Option Int :=
  match s.data with
  | '-' :: cs => (decDigits? cs).map (fun n => -(n : Int))
  | '+' :: cs => (decDigits? cs).map (fun n => (n : Int))
  | cs => (decDigits? cs).map (fun n => (n : Int))

/-- Model of `json_util._parse_canonical_int64` + the `Int64` constructor:
one field whose value is an integer string or already an int; anything else
raises (`ValueError` / `TypeError`). -/
def parseLongTag (fields : List (String × PyValue)) : Except String PyValue :=
  if fields.length ≠ 1 then .error "Bad $numberLong, extra field(s)"
  else
    match lookupField fields "$numberLong" with
    | Option.some (.str s) =>
      match pyIntOfString s with
      | Option.some n => .ok (.int n)
      | Option.none => .error "invalid literal for int()"
    | Option.some (.int n) => .ok (.int n)
    | Option.some _ => .error "int() argument must be a string or a number"
    | Option.none => .error "Bad $numberLong, missing value"

/-- Model of `bson.json_util.object_hook`: dispatch on the first key present
in the parser table; no recognized key means the dict passes through. -/
def object_hook : Hook := fun fields =>
  match fields.find? (fun p => p.1 ∈ parsersSet) with
  | Option.some p => if p.1 = "$oid" then parseOidTag fields else parseLongTag fields
  | Option.none => .ok (.dict fields)

/-- The decode performed at app.py line 59:
`json.loads(filter_input, object_hook=json_util.object_hook)`. -/
def json_loads_hook (s : String) : Except JErr PyValue :=
  json_loads_with object_hook s

mutual
/-- The specification's reading of extended decoding: take the standard JSON
decode and convert every tagged sub-object with the hook, bottom-up. -/
def applyTreeWith (hook : Hook) : PyValue → Except String PyValue
  | .list xs =>
    match applyListWith hook xs with
    | .ok ys => .ok (.list ys)
    | .error m => .error m
  | .dict fs =>
    match applyPairsWith hook fs with
    | .ok gs => hook gs
    | .error m => .error m
  | v => .ok v

/-- Bottom-up conversion of the elements of a list. -/
def applyListWith (hook : Hook) : List PyValue → Except String (List PyValue)
  | [] => .ok []
  | x :: xs =>
    match applyTreeWith hook x with
    | .error m => .error m
    | .ok y =>
      match applyListWith hook xs with
      | .error m => .error m
      | .ok ys => .ok (y :: ys)

/-- Bottom-up conversion of the values of a field list (the hook itself is
applied by `applyTreeWith` once the enclosing dict is assembled). -/
def applyPairsWith (hook : Hook) :
    List (String × PyValue) → Except String (List (String × PyValue))
  | [] => .ok []
  | (k, v) :: fs =>
    match applyTreeWith hook v with
    | .error m => .error m
    | .ok w =>
      match applyPairsWith hook fs with
      | .error m => .error m
      | .ok gs => .ok ((k, w) :: gs)
end

/-- The specification's composed description of app.py line 59's decode:
standard JSON decoding followed by the bottom-up `json_util.object_hook`
conversion of every object. -/
def applyHookTree (v : PyValue) : Except String PyValue :=
  applyTreeWith object_hook v

/-! ### CSV serialization (model of `DataFrame.to_csv` with QUOTE_MINIMAL)

`df.to_csv(buffer, index=False)` (app.py line 98) writes a header row of the
column names and then each row's cells rendered with Python `str`, a NaN
marker becoming an empty field.  Fields containing the delimiter, the quote
character, or a line break are quoted, with embedded quotes doubled — the
csv module's QUOTE_MINIMAL discipline.  `parseCsv` below is the matching
delimited-text reader, used to state round-trip properties. -/

/-- The text `to_csv` writes for one cell: empty for the NaN marker,
Python `str` otherwise. -/
def csvCellText : Cell → String
  | Option.none => ""
  | Option.some v => pyStr v

/-- QUOTE_MINIMAL: a field is quoted iff it holds a delimiter, a quote, or a
line break. -/
def needsQuote (s : String) : Bool :=
  s.data.any (fun c => c = ',' || c = '"' || c = '\n' || c = '\r')

/-- Doubles every quote character, the csv escaping rule. -/
def escQuotes : List Char → List Char
  | [] => []
  | c :: cs => if c = '"' then '"' :: '"' :: escQuotes cs else c :: escQuotes cs

/-- One serialized csv field. -/
def encodeField (s : String) : List Char :=
  if needsQuote s then '"' :: (escQuotes s.data ++ ['"']) else s.data

/-- One serialized csv row: fields joined by commas. -/
def encodeRow : List String → List Char
  | [] => []
  | [f] => encodeField f
  | f :: fs => encodeField f ++ ',' :: encodeRow fs

/-- Serialized csv records, each terminated by the line terminator
(`\n` on the Linux the app runs on). -/
def encodeLines : List (List String) → List Char
  | [] => []
  | r :: rs => encodeRow r ++ '\n' :: encodeLines rs

/-- Model of `df.to_csv(index=...)`: a header row of the column names (with a
leading unnamed index column only when `index` is true), then the rows. -/
def to_csv (df : DataFrame) (index : Bool) : String :=
  let header := if index then "" :: df.columns else df.columns
  let body := df.rows.enum.map
    (fun p => (if index then [intStr p.1] else []) ++ p.2.map csvCellText)
  String.mk (encodeLines (header :: body))

/-- Reads a quoted csv field after its opening quote; a doubled quote is a
literal quote, a single closing quote ends the field. -/
def parseQField (acc : List Char) : List Char → Option (String × List Char)
  | [] => Option.none
  | c :: rest =>
    if c = '"' then
      match rest with
      | c2 :: rest2 =>
        if c2 = '"' then parseQField (acc ++ ['"']) rest2
        else Option.some (String.mk acc, c2 :: rest2)
      | [] => Option.some (String.mk acc, [])
    else parseQField (acc ++ [c]) rest

/-- Reads an unquoted csv field: everything up to a delimiter or line break. -/
def parseUField (acc : List Char) : List Char → String × List Char
  | [] => (String.mk acc, [])
  | c :: rest =>
    if c = ',' ∨ c = '\n' then (String.mk acc, c :: rest)
    else parseUField (acc ++ [c]) rest

/-- Reads one csv field. -/
def parseFieldCsv (cs : List Char) : Option (String × List Char) :=
  match cs with
  | c :: rest =>
    if c = '"' then parseQField [] rest else Option.some (parseUField [] (c :: rest))
  | [] => Option.some (parseUField [] [])

/-- Reads one csv record: comma-separated fields up to a line break or the
end of input. -/
def parseRowCsv : Nat → List Char → Option (List String × List Char)
  | 0, _ => Option.none
  | Nat.succ fuel, cs =>
    match parseFieldCsv cs with
    | Option.none => Option.none
    | Option.some (f, rest) =>
      match rest with
      | ',' :: rest2 =>
        match parseRowCsv fuel rest2 with
        | Option.none => Option.none
        | Option.some (fs, r) => Option.some (f :: fs, r)
      | '\n' :: rest2 => Option.some ([f], rest2)
      | [] => Option.some ([f], [])
      | _ => Option.none

/-- Reads all csv records to the end of input. -/
def parseCsvRecords : Nat → List Char → Option (List (List String))
  | _, [] => Option.some []
  | 0, _ => Option.none
  | Nat.succ fuel, cs =>
    match parseRowCsv (cs.length + 1) cs with
    | Option.none => Option.none
    | Option.some (r, rest) =>
      match parseCsvRecords fuel rest with
      | Option.none => Option.none
      | Option.some rs => Option.some (r :: rs)

/-- Parses a whole delimited-text document into its records. -/
def parseCsv (s : String) : Option (List (List String)) :=
  parseCsvRecords (s.data.length + 1) s.data

/-! ### Spreadsheet export (model of `to_excel`) and the pipeline

`df.to_excel(buffer, index=False, engine=openpyxl)` (app.py line 102) writes
one worksheet whose first row is the column names followed by the data rows.
The workbook's layout is modelled structurally (only its binary encoding is
outside the model); openpyxl's cell binding accepts only scalar values, so
the write raises `ValueError("Cannot convert ... to Excel")` when a cell
holds a dict, a list, or an ObjectId — the very reason `clean_data` exists.
The buffer is modelled by its payload and a cursor position: writing leaves
the cursor at the end, `buffer.seek(0)` (line 106) returns it to the
start. -/

/-- One worksheet: the header row and the typed data cells. -/
structure Sheet where
  header : List String
  cells : List (List Cell)

/-- A workbook, as `to_excel` builds one. -/
structure Workbook where
  sheets : List Sheet

/-- Model of `df.to_excel(index=...)`: a single sheet, header = column names
(with a leading blank index header only when `index` is true). -/
def to_excel (df : DataFrame) (index : Bool) : Workbook :=
  { sheets := [{ header := if index then "" :: df.columns else df.columns
                 cells := df.rows.enum.map
                   (fun p =>
                     (if index then ([Option.some (PyValue.int p.1)] : List Cell) else []) ++ p.2) }] }

/-- The cell values openpyxl can bind into a worksheet cell: None, booleans,
numbers and strings (datetimes are not modelled).  A nested container or an
ObjectId makes `openpyxl` raise `ValueError("Cannot convert ... to Excel")`.
The NaN marker is written as an empty cell and is fine. -/
def excelConvertible : Cell → Bool
  | Option.none => true
  | Option.some PyValue.none => true
  | Option.some (PyValue.bool _) => true
  | Option.some (PyValue.int _) => true
  | Option.some (PyValue.float _) => true
  | Option.some (PyValue.str _) => true
  | Option.some (PyValue.list _) => false
  | Option.some (PyValue.dict _) => false
  | Option.some (PyValue.oid _) => false

/-- The call `df.to_excel(buffer, index=False, engine=openpyxl)` itself:
succeeds with the workbook of `to_excel` exactly when every cell is a value
openpyxl can bind; otherwise it raises. -/
def to_excel_checked (df : DataFrame) (index : Bool) : Except String Workbook :=
  if df.rows.all (fun row => row.all excelConvertible) then .ok (to_excel df index)
  else .error "Cannot convert to Excel"

/-- The bytes written into the `io.BytesIO` buffer. -/
inductive Payload where
  | csvBytes (text : String)
  | xlsxBytes (wb : Workbook)

/-- Length stand-in for the written payload: only zero-vs-nonzero of the
cursor matters to any claim. -/
def Payload.size : Payload → Nat
  | .csvBytes t => t.data.length
  | .xlsxBytes wb => wb.sheets.length

/-- The `io.BytesIO` buffer: payload plus cursor position. -/
structure ByteBuffer where
  payload : Payload
  pos : Nat

/-- Model of `buffer.seek(0)`. -/
def seekStart (b : ByteBuffer) : ByteBuffer := { b with pos := 0 }

/-- The download artifact handed to the shell: buffer, content type, name. -/
structure Artifact where
  buffer : ByteBuffer
  mime : String
  fileName : String

/-- The export format radio button. -/
inductive ExportFormat where
  | csv
  | excel
deriving DecidableEq, Repr

/-- Step 5 of app.py (lines 93-106): serialize the frame into a fresh
in-memory buffer, pick mime type and file name, and seek to the start.
The csv write never raises for these values; the Excel write raises when a
cell cannot be bound (`to_excel_checked`), and the exception propagates out
of the step. -/
def exportArtifact (df : DataFrame) (fmt : ExportFormat) : Except String Artifact :=
  match fmt with
  | .csv =>
    let text := to_csv df false
    let buf : ByteBuffer := { payload := .csvBytes text, pos := (Payload.csvBytes text).size }
    .ok { buffer := seekStart buf, mime := "text/csv", fileName := "mongo_export.csv" }
  | .excel =>
    match to_excel_checked df false with
    | .error m => .error m
    | .ok wb =>
      let buf : ByteBuffer := { payload := .xlsxBytes wb, pos := (Payload.xlsxBytes wb).size }
      .ok { buffer := seekStart buf
            mime := "application/vnd.openxmlformats-officedocument.spreadsheetml.sheet"
            fileName := "mongo_export.xlsx" }

/-- An exception raised by a pymongo call, by its Python class: the three
classes the `except` chain of app.py lines 118-132 distinguishes. -/
inductive ExcKind where
  | serverTimeout (msg : String)
  | opFailure (msg : String)
  | otherExc (msg : String)
deriving DecidableEq, Repr

/-- The external world of one run: what the network-facing calls would do.
`ctorErr` is `MongoClient(...)` itself raising (the handle is then never
created), `serverInfoErr` is the reachability check, `findResult` the
materialized query. -/
structure Env where
  ctorErr : Option String
  serverInfoErr : Option ExcKind
  findResult : Except ExcKind (List Record)

/-- The four failure kinds of the pipeline boundary. -/
inductive FailKind where
  | filterSyntax
  | connectionTimeout
  | authorizationFailure
  | unclassified
deriving DecidableEq, Repr

/-- The terminal outcome of one run, as surfaced to the shell. -/
inductive Outcome where
  | success (artifact : Artifact) (recordCount : Nat)
  | emptyResult
  | failure (kind : FailKind) (msg : String)

/-- The observable result of one run, with the resource trace the claims
quantify over: whether a connection was attempted (line 67 reached), whether
the handle was created, and how many times `client.close()` ran. -/
structure RunResult where
  outcome : Outcome
  connectionAttempted : Bool
  clientCreated : Bool
  closeCount : Nat

/-- The `except` chain of app.py lines 118-132, in order:
`ServerSelectionTimeoutError`, then `OperationFailure`, then `Exception`. -/
def classify : ExcKind → FailKind × String
  | .serverTimeout m => (.connectionTimeout, m)
  | .opFailure m => (.authorizationFailure, m)
  | .otherExc m => (.unclassified, m)

/-- The error banner text of app.py line 61 carries the decoder's message and
position. -/
def jsonErrorText (pos : Nat) (msg : String) : String :=
  msg ++ ": char " ++ intStr (pos : Int)

/-- The whole button handler (app.py lines 53-137).  A `JSONDecodeError`
halts via `st.stop()` before any connection work (modelled by `st.stop`'s
documented contract of stopping execution); a raising object hook is not a
`JSONDecodeError` and falls through to the generic `except Exception`.  The
`finally` closes the handle exactly when one was created. -/
def run (filterText : String) (fmt : ExportFormat) (env : Env) : RunResult :=
  match json_loads_hook filterText with
  | .error (.syntaxErr pos msg) =>
    { outcome := .failure .filterSyntax (jsonErrorText pos msg)
      connectionAttempted := false, clientCreated := false, closeCount := 0 }
  | .error (.hookErr msg) =>
    { outcome := .failure .unclassified msg
      connectionAttempted := false, clientCreated := false, closeCount := 0 }
  | .ok _queryFilter =>
    match env.ctorErr with
    | Option.some msg =>
      { outcome := .failure .unclassified msg
        connectionAttempted := true, clientCreated := false, closeCount := 0 }
    | Option.none =>
      match env.serverInfoErr with
      | Option.some exc =>
        { outcome := .failure (classify exc).1 (classify exc).2
          connectionAttempted := true, clientCreated := true, closeCount := 1 }
      | Option.none =>
        match env.findResult with
        | .error exc =>
          { outcome := .failure (classify exc).1 (classify exc).2
            connectionAttempted := true, clientCreated := true, closeCount := 1 }
        | .ok [] =>
          { outcome := .emptyResult
            connectionAttempted := true, clientCreated := true, closeCount := 1 }
        | .ok data =>
          let df := clean_data (dataFrameOfRecords data)
          match exportArtifact df fmt with
          | .ok artifact =>
            { outcome := .success artifact data.length
              connectionAttempted := true, clientCreated := true, closeCount := 1 }
          | .error m =>
            -- e.g. ValueError from the Excel cell binding: caught by the
            -- generic `except Exception` (line 130); finally still closes
            { outcome := .failure .unclassified m
              connectionAttempted := true, clientCreated := true, closeCount := 1 }

/-! ### Concrete fixtures used by witnesses and counterexamples -/

/-- A well-formed JSON filter whose extended-type tag is malformed:
the tag value is a number where `ObjectId` requires a string. -/
def badTagFilter : String := "\x7b\"a\": \x7b\"$oid\": 5\x7d\x7d"

/-- A well-formed JSON filter whose `$oid` tag value is not 24 hex digits. -/
def badHexFilter : String := "\x7b\"$oid\": \"zz\"\x7d"

/-- A syntactically malformed filter: the object is cut off after a colon. -/
def truncFilter : String := "\x7b\"a\":"

/-- A well-formed extended-JSON filter with a well-formed `$oid` tag. -/
def goodOidFilter : String :=
  "\x7b\"a\": \x7b\"$oid\": \"0123456789abcdef01234567\"\x7d\x7d"

/-- An environment where every network-facing call succeeds and the query
matches nothing. -/
def envIdle : Env :=
  { ctorErr := Option.none, serverInfoErr := Option.none, findResult := .ok [] }

/-- An environment where the reachability check times out. -/
def envTimeout : Env :=
  { ctorErr := Option.none
    serverInfoErr := Option.some (.serverTimeout "no servers found")
    findResult := .ok [] }

/-- A valid ObjectId hex string. -/
def sampleOid : String := "64e88f2bd8a9c5f1e0a7b123"

/-- Two heterogeneous records: the first has an `_id`, the second brings a
new key. -/
def sampleRecords : List Record :=
  [[("_id", PyValue.oid sampleOid), ("name", PyValue.str "a")],
   [("name", PyValue.str "b"), ("qty", PyValue.int 7)]]

/-- An environment where the query returns `sampleRecords`. -/
def envData : Env :=
  { ctorErr := Option.none, serverInfoErr := Option.none
    findResult := .ok sampleRecords }

/-- An environment whose single matching record carries an ObjectId under a
field not named "_id". -/
def envRefData : Env :=
  { ctorErr := Option.none, serverInfoErr := Option.none
    findResult := .ok [[("ref", PyValue.oid sampleOid)]] }

/-- A one-column frame holding an ObjectId under a name other than "_id". -/
def refFrame : DataFrame :=
  { columns := ["ref"], rows := [[Option.some (PyValue.oid sampleOid)]] }

/-- A one-column frame whose only cell needs csv quoting. -/
def tinyFrame : DataFrame :=
  { columns := ["a"], rows := [[Option.some (PyValue.str "x,y")]] }

/-- A one-column frame holding an ObjectId under the name "_id". -/
def idFrame : DataFrame :=
  { columns := ["_id"], rows := [[Option.some (PyValue.oid sampleOid)]] }

/-! ### Claim theorems: the pipeline boundary (C1, C2, C4, C5) -/

/-- C1 (amended): for every filter text on which the extended decode fails,
the pipeline halts at the parse stage — no connection is attempted, no handle
is created, and no partial or default query is substituted.  When the decoder
itself rejects the text (`json.JSONDecodeError`) the failure is FilterSyntax
and carries the decoder's position and message; but when the text is
well-formed JSON whose extended-type tag is malformed, the hook's error is
not a `JSONDecodeError` and is surfaced as Unclassified instead. -/
theorem malformed_filter_halts_without_connection
    (ft : String) (fmt : ExportFormat) (env : Env) :
    (∀ p m, json_loads_hook ft = .error (.syntaxErr p m) →
      run ft fmt env =
        { outcome := .failure .filterSyntax (jsonErrorText p m)
          connectionAttempted := false, clientCreated := false, closeCount := 0 }) ∧
    (∀ m, json_loads_hook ft = .error (.hookErr m) →
      run ft fmt env =
        { outcome := .failure .unclassified m
          connectionAttempted := false, clientCreated := false, closeCount := 0 }) := by
  constructor
  · intro p m h
    simp [run, h]
  · intro m h
    simp [run, h]

/-- Witness for C1's amended theorem at a concrete truncated filter. -/
theorem malformed_filter_halts_witness :
    run truncFilter .csv envIdle =
      { outcome := .failure .filterSyntax (jsonErrorText 5 "Expecting value")
        connectionAttempted := false, clientCreated := false, closeCount := 0 } :=
  (malformed_filter_halts_without_connection truncFilter .csv envIdle).1
    5 "Expecting value" rfl

/-- C1 counterexample: `badTagFilter` is well-formed JSON (the standard decode
succeeds) with a malformed extended-type tag, yet the run fails with kind
Unclassified, not FilterSyntax — the hook's `TypeError` bypasses the
`except json.JSONDecodeError` handler. -/
theorem malformed_tag_not_filter_syntax :
    json_loads badTagFilter
      = .ok (.dict [("a", .dict [("$oid", .int 5)])]) ∧
    (run badTagFilter .csv envIdle).outcome
      = .failure .unclassified "id must be an instance of str" ∧
    (run badTagFilter .csv envIdle).connectionAttempted = false ∧
    FailKind.unclassified ≠ FailKind.filterSyntax :=
  ⟨rfl, rfl, rfl, by decide⟩

/-- C2: the connection handle is closed exactly once whenever it was created
(on success, empty result, and every failure raised after creation), and
never closed when it was not created — the `finally` of app.py line 134. -/
theorem connection_closed_exactly_once
    (ft : String) (fmt : ExportFormat) (env : Env) :
    ((run ft fmt env).clientCreated = true → (run ft fmt env).closeCount = 1) ∧
    ((run ft fmt env).clientCreated = false → (run ft fmt env).closeCount = 0) := by
  cases hj : json_loads_hook ft with
  | error e => cases e <;> simp [run, hj]
  | ok v =>
    cases hc : env.ctorErr with
    | some m => simp [run, hj, hc]
    | none =>
      cases hs : env.serverInfoErr with
      | some exc => simp [run, hj, hc, hs]
      | none =>
        cases hf : env.findResult with
        | error exc => simp [run, hj, hc, hs, hf]
        | ok data =>
          cases data with
          | nil => simp [run, hj, hc, hs, hf]
          | cons d ds =>
            cases hexp : exportArtifact (clean_data (dataFrameOfRecords (d :: ds))) fmt
              <;> simp [run, hj, hc, hs, hf, hexp]

/-- Witness for C2 on a run that creates a handle (empty-result exit path). -/
theorem connection_closed_exactly_once_witness :
    (run "[]" .csv envIdle).clientCreated = true ∧
    (run "[]" .csv envIdle).closeCount = 1 :=
  ⟨rfl, (connection_closed_exactly_once "[]" .csv envIdle).1 rfl⟩

/-- C4: every run ends in a structured outcome (success, empty result, or a
classified failure — never an unhandled fault), the classification follows
the `except` chain (JSON decode errors are FilterSyntax, server-selection
timeouts are ConnectionTimeout, server-rejected operations are
AuthorizationFailure, everything else — including hook and constructor
errors — is Unclassified), and the four kinds are pairwise distinct. -/
theorem errors_classified_at_boundary
    (ft : String) (fmt : ExportFormat) (env : Env) :
    ((∃ a n, (run ft fmt env).outcome = .success a n) ∨
      (run ft fmt env).outcome = .emptyResult ∨
      (∃ k m, (run ft fmt env).outcome = .failure k m)) ∧
    (∀ p m, json_loads_hook ft = .error (.syntaxErr p m) →
      (run ft fmt env).outcome = .failure .filterSyntax (jsonErrorText p m)) ∧
    (∀ m, json_loads_hook ft = .error (.hookErr m) →
      (run ft fmt env).outcome = .failure .unclassified m) ∧
    (∀ qf m, json_loads_hook ft = .ok qf → env.ctorErr = Option.some m →
      (run ft fmt env).outcome = .failure .unclassified m) ∧
    (∀ qf exc, json_loads_hook ft = .ok qf → env.ctorErr = Option.none →
      env.serverInfoErr = Option.some exc →
      (run ft fmt env).outcome = .failure (classify exc).1 (classify exc).2) ∧
    (∀ qf exc, json_loads_hook ft = .ok qf → env.ctorErr = Option.none →
      env.serverInfoErr = Option.none → env.findResult = .error exc →
      (run ft fmt env).outcome = .failure (classify exc).1 (classify exc).2) ∧
    (∀ m, classify (.serverTimeout m) = (.connectionTimeout, m)) ∧
    (∀ m, classify (.opFailure m) = (.authorizationFailure, m)) ∧
    (∀ m, classify (.otherExc m) = (.unclassified, m)) ∧
    [FailKind.filterSyntax, .connectionTimeout, .authorizationFailure,
      .unclassified].Nodup := by
  refine ⟨?_, ?_, ?_, ?_, ?_, ?_, fun m => rfl, fun m => rfl, fun m => rfl, by decide⟩
  · cases hj : json_loads_hook ft with
    | error e => cases e <;> simp [run, hj]
    | ok v =>
      cases hc : env.ctorErr with
      | some m => simp [run, hj, hc]
      | none =>
        cases hs : env.serverInfoErr with
        | some exc => simp [run, hj, hc, hs]
        | none =>
          cases hf : env.findResult with
          | error exc => simp [run, hj, hc, hs, hf]
          | ok data =>
          cases data with
          | nil => simp [run, hj, hc, hs, hf]
          | cons d ds =>
            cases hexp : exportArtifact (clean_data (dataFrameOfRecords (d :: ds))) fmt
              <;> simp [run, hj, hc, hs, hf, hexp]
  · intro p m h; simp [run, h]
  · intro m h; simp [run, h]
  · intro qf m h1 h2; simp [run, h1, h2]
  · intro qf exc h1 h2 h3; simp [run, h1, h2, h3]
  · intro qf exc h1 h2 h3 h4; simp [run, h1, h2, h3, h4]

/-- Witness for C4 at a concrete timed-out environment. -/
theorem errors_classified_at_boundary_witness :
    (run "[]" .csv envTimeout).outcome
      = .failure .connectionTimeout "no servers found" :=
  (errors_classified_at_boundary "[]" .csv envTimeout).2.2.2.2.1
    (.list []) (.serverTimeout "no servers found") rfl rfl rfl

/-- C5: an empty query result yields the distinct EmptyResult outcome — by
construction it carries no artifact — and that outcome is different from
every failure and every success. -/
theorem empty_result_is_distinct_outcome
    (ft : String) (fmt : ExportFormat) (env : Env) (qf : PyValue)
    (hp : json_loads_hook ft = .ok qf) (hc : env.ctorErr = Option.none)
    (hs : env.serverInfoErr = Option.none) (hf : env.findResult = .ok []) :
    (run ft fmt env).outcome = .emptyResult ∧
    (∀ k m, Outcome.emptyResult ≠ Outcome.failure k m) ∧
    (∀ a n, Outcome.emptyResult ≠ Outcome.success a n) := by
  refine ⟨by simp [run, hp, hc, hs, hf], ?_, ?_⟩
  · intro k m h; exact Outcome.noConfusion h
  · intro a n h; exact Outcome.noConfusion h

/-- Witness for C5 at a concrete empty-result run. -/
theorem empty_result_is_distinct_outcome_witness :
    (run "[]" .csv envIdle).outcome = .emptyResult :=
  (empty_result_is_distinct_outcome "[]" .csv envIdle (.list []) rfl rfl rfl rfl).1

/-! ### Claim theorems: clean_data (C10, and the C7 counterexample) -/

/-- Positions other than `j` are untouched by `mapAt j`. -/
theorem mapAt_getElem?_ne (f : α → α) :
    ∀ (l : List α) (j i : Nat), j ≠ i → (mapAt j f l)[i]? = l[i]? := by
  intro l
  induction l with
  | nil => intro j i _; simp [mapAt]
  | cons x xs ih =>
    intro j i hne
    cases j with
    | zero =>
      cases i with
      | zero => exact absurd rfl hne
      | succ i => simp [mapAt]
    | succ j =>
      cases i with
      | zero => simp [mapAt]
      | succ i =>
        simpa [mapAt] using ih j i (fun h => hne (by rw [h]))

/-- Position `j` is mapped by `mapAt j`. -/
theorem mapAt_getElem?_eq (f : α → α) :
    ∀ (l : List α) (j : Nat), (mapAt j f l)[j]? = (l[j]?).map f := by
  intro l
  induction l with
  | nil => intro j; simp [mapAt]
  | cons x xs ih =>
    intro j
    cases j with
    | zero => simp [mapAt]
    | succ j => simpa [mapAt] using ih j

/-- C10: `clean_data` keeps the column list and the row count, is the
identity when no "_id" column is present, leaves every cell in a column not
named "_id" unchanged, and converts the "_id" column (at its position) by
`astype(str)`. -/
theorem clean_data_only_id_column (df : DataFrame) :
    (clean_data df).columns = df.columns ∧
    (clean_data df).rows.length = df.rows.length ∧
    ("_id" ∉ df.columns → clean_data df = df) ∧
    (∀ i j, df.columns.get? j ≠ Option.some "_id" →
      getCell (clean_data df) i j = getCell df i j) ∧
    ("_id" ∈ df.columns → ∀ i row, df.rows.get? i = Option.some row →
      (clean_data df).rows.get? i
        = Option.some (mapAt (df.columns.indexOf "_id") astypeStrCell row)) := by
  by_cases hmem : "_id" ∈ df.columns
  · refine ⟨by simp [clean_data, hmem], by simp [clean_data, hmem], ?_, ?_, ?_⟩
    · intro h; exact absurd hmem h
    · intro i j hj
      have hne : df.columns.indexOf "_id" ≠ j := by
        intro h
        exact hj (h ▸ List.indexOf_get? hmem)
      simp only [clean_data, hmem, if_pos, getCell, List.get?_eq_getElem?,
        List.getElem?_map]
      cases hrow : df.rows[i]? with
      | none => rfl
      | some row => simp [mapAt_getElem?_ne _ _ _ _ hne]
    · intro _ i row hrow
      rw [List.get?_eq_getElem?] at hrow
      simp [clean_data, hmem, hrow]
  · refine ⟨by simp [clean_data, hmem], by simp [clean_data, hmem], ?_, ?_, ?_⟩
    · intro _; simp [clean_data, hmem]
    · intro i j _; simp [clean_data, hmem]
    · intro h; exact absurd h hmem

/-- Witness for C10: identity on a frame with no "_id" column, and an
unchanged non-"_id" cell on a frame that has one. -/
theorem clean_data_only_id_column_witness :
    clean_data refFrame = refFrame ∧
    getCell (clean_data (dataFrameOfRecords sampleRecords)) 0 1
      = getCell (dataFrameOfRecords sampleRecords) 0 1 :=
  ⟨(clean_data_only_id_column refFrame).2.2.1 (by decide),
   (clean_data_only_id_column (dataFrameOfRecords sampleRecords)).2.2.2.1 0 1
     (by decide)⟩

/-- C7 counterexample: a column holding the opaque identifier type under a
name other than "_id" passes through `clean_data` unchanged — its cell is
still the ObjectId, not the canonical string form the claim requires. -/
theorem oid_outside_id_not_rewritten :
    clean_data refFrame = refFrame ∧
    getCell (clean_data refFrame) 0 0
      = Option.some (Option.some (PyValue.oid sampleOid)) ∧
    (Option.some (PyValue.oid sampleOid) : Cell)
      ≠ Option.some (PyValue.str (pyStr (PyValue.oid sampleOid))) := by
  have hid : clean_data refFrame = refFrame :=
    (clean_data_only_id_column refFrame).2.2.1 (by decide)
  refine ⟨hid, by rw [hid]; rfl, ?_⟩
  intro h
  injection h with h2
  exact PyValue.noConfusion h2

/-! ### Claim theorems: the normalizer's column discovery (C6) -/

/-- Key discovery distributes over appending key lists. -/
theorem addNewKeys_append (l1 l2 acc : List String) :
    addNewKeys acc (l1 ++ l2) = addNewKeys (addNewKeys acc l1) l2 := by
  induction l1 generalizing acc with
  | nil => rfl
  | cons k ks ih =>
    by_cases hk : k ∈ acc <;> simp [addNewKeys, hk, ih]

/-- The fold over records discovers exactly the keys of the concatenated key
lists, in order. -/
theorem collectColumns_eq_addNewKeys (records : List Record) :
    ∀ acc, records.foldl (fun a r => addNewKeys a (recordKeys r)) acc
      = addNewKeys acc ((records.map recordKeys).flatten) := by
  induction records with
  | nil => intro acc; rfl
  | cons r rs ih =>
    intro acc
    simp only [List.foldl_cons, List.map_cons, List.flatten_cons, addNewKeys_append]
    exact ih _

/-- Filtering by exclusion from `acc ++ [k]` is filtering by exclusion from
`acc` and then by difference from `k`. -/
theorem filter_notmem_append_singleton (acc : List String) (k : String)
    (l : List String) :
    l.filter (fun y => y ∉ acc ++ [k])
      = (l.filter (fun y => y ∉ acc)).filter (fun y => y ≠ k) := by
  rw [List.filter_filter]
  apply List.filter_congr
  intro x _
  by_cases h1 : x ∈ acc <;> by_cases h2 : x = k <;> simp [h1, h2]

/-- Key discovery is `acc` followed by the first-occurrence dedup of the
still-unseen keys. -/
theorem addNewKeys_eq_dedupFirst (l : List String) :
    ∀ acc, addNewKeys acc l = acc ++ dedupFirst (l.filter (fun y => y ∉ acc)) := by
  induction l with
  | nil => intro acc; simp [addNewKeys, dedupFirst]
  | cons k ks ih =>
    intro acc
    by_cases hk : k ∈ acc
    · simp [addNewKeys, hk, ih]
    · rw [addNewKeys, if_neg hk, ih (acc ++ [k]), filter_notmem_append_singleton]
      have hfc : (k :: ks).filter (fun y => y ∉ acc)
          = k :: ks.filter (fun y => y ∉ acc) := by
        simp [List.filter_cons, hk]
      rw [hfc]
      simp [dedupFirst, List.append_assoc]

/-- Membership in discovered keys. -/
theorem addNewKeys_mem (l : List String) :
    ∀ acc x, x ∈ addNewKeys acc l ↔ x ∈ acc ∨ x ∈ l := by
  induction l with
  | nil => intro acc x; simp [addNewKeys]
  | cons k ks ih =>
    intro acc x
    by_cases hk : k ∈ acc
    · rw [addNewKeys, if_pos hk, ih]
      constructor
      · rintro (h | h)
        · exact Or.inl h
        · exact Or.inr (List.mem_cons_of_mem _ h)
      · rintro (h | h)
        · exact Or.inl h
        · rcases List.mem_cons.mp h with rfl | h
          · exact Or.inl hk
          · exact Or.inr h
    · rw [addNewKeys, if_neg hk, ih]
      simp [List.mem_append, or_assoc]

/-- Discovered keys are duplicate-free when the seed is. -/
theorem addNewKeys_nodup (l : List String) :
    ∀ acc, acc.Nodup → (addNewKeys acc l).Nodup := by
  induction l with
  | nil => intro acc h; exact h
  | cons k ks ih =>
    intro acc h
    by_cases hk : k ∈ acc
    · rw [addNewKeys, if_pos hk]; exact ih _ h
    · rw [addNewKeys, if_neg hk]
      exact ih _ (by simp [List.nodup_append, h, hk])

/-- A key absent from a record looks up to the null marker. -/
theorem lookupField_eq_none (r : Record) (c : String) (h : c ∉ recordKeys r) :
    lookupField r c = Option.none := by
  have : r.find? (fun p => p.1 = c) = Option.none := by
    rw [List.find?_eq_none]
    intro p hp hpc
    exact h (List.mem_map.mpr ⟨p, hp, by simpa using hpc⟩)
  simp [lookupField, this]

/-- C6: for a non-empty record set, the DataFrame's columns are exactly the
union of the record keys in first-occurrence order (`dedupFirst` of the
concatenated key lists), duplicate-free, with membership iff some record has
the key; there is one row per record, each row aligned to the full column
list by key lookup, and a key absent from a record yields the null marker. -/
theorem normalize_builds_union_table (records : List Record)
    (hne : records ≠ []) :
    (dataFrameOfRecords records).columns
      = dedupFirst ((records.map recordKeys).flatten) ∧
    (∀ c, c ∈ (dataFrameOfRecords records).columns ↔
      ∃ r, r ∈ records ∧ c ∈ recordKeys r) ∧
    (dataFrameOfRecords records).columns.Nodup ∧
    (dataFrameOfRecords records).rows.length = records.length ∧
    (∀ i r, records.get? i = Option.some r →
      (dataFrameOfRecords records).rows.get? i
        = Option.some ((dataFrameOfRecords records).columns.map
            (fun c => lookupField r c))) ∧
    (∀ (r : Record) (c : String), c ∉ recordKeys r →
      lookupField r c = Option.none) := by
  have hcols : (dataFrameOfRecords records).columns
      = addNewKeys [] ((records.map recordKeys).flatten) := by
    simp [dataFrameOfRecords, collectColumns, collectColumns_eq_addNewKeys]
  refine ⟨?_, ?_, ?_, ?_, ?_, lookupField_eq_none⟩
  · rw [hcols, addNewKeys_eq_dedupFirst]
    have hfl : ((records.map recordKeys).flatten).filter
        (fun y => y ∉ ([] : List String)) = (records.map recordKeys).flatten :=
      List.filter_eq_self.mpr (fun a _ => by simp)
    rw [hfl]
    rfl
  · intro c
    rw [hcols, addNewKeys_mem]
    simp [List.mem_flatten]
  · rw [hcols]
    exact addNewKeys_nodup _ _ List.nodup_nil
  · simp [dataFrameOfRecords]
  · intro i r hr
    rw [List.get?_eq_getElem?] at hr
    simp [dataFrameOfRecords, hr]

/-- Witness for C6 at two concrete heterogeneous records. -/
theorem normalize_builds_union_table_witness :
    (dataFrameOfRecords sampleRecords).columns = ["_id", "name", "qty"] := by
  have h := (normalize_builds_union_table sampleRecords
    (by intro h; simp [sampleRecords] at h)).1
  rw [h]
  simp [sampleRecords, recordKeys, dedupFirst]

/-! ### The csv round trip: the writer's output re-parses to the same table -/

/-- Reading a quoted body: the escaped text followed by the closing quote
gives back the text, as long as what follows is not another quote. -/
theorem parseQField_encode (s : List Char) :
    ∀ (acc rest : List Char), rest.head? ≠ Option.some '"' →
      parseQField acc (escQuotes s ++ '"' :: rest)
        = Option.some (String.mk (acc ++ s), rest) := by
  induction s with
  | nil =>
    intro acc rest h
    cases rest with
    | nil => simp [escQuotes, parseQField]
    | cons c2 r2 =>
      have hc2 : ¬(c2 = '"') := by
        intro hc; exact h (by simp [hc])
      simp [escQuotes, parseQField, hc2]
  | cons c cs ih =>
    intro acc rest h
    by_cases hc : c = '"'
    · subst hc
      have hsplit : escQuotes ('"' :: cs) ++ '"' :: rest
          = '"' :: '"' :: (escQuotes cs ++ '"' :: rest) := by
        simp [escQuotes]
      have hstep : parseQField acc ('"' :: '"' :: (escQuotes cs ++ '"' :: rest))
          = parseQField (acc ++ ['"']) (escQuotes cs ++ '"' :: rest) := by
        simp [parseQField]
      rw [hsplit, hstep, ih _ _ h]
      simp
    · have hsplit : escQuotes (c :: cs) ++ '"' :: rest
          = c :: (escQuotes cs ++ '"' :: rest) := by
        simp [escQuotes, hc]
      have hstep : parseQField acc (c :: (escQuotes cs ++ '"' :: rest))
          = parseQField (acc ++ [c]) (escQuotes cs ++ '"' :: rest) := by
        rw [parseQField.eq_def]
        simp [hc]
      rw [hsplit, hstep, ih _ _ h]
      simp

/-- Reading an unquoted field: delimiter-free text stops exactly at the
following delimiter, line break, or end of input. -/
theorem parseUField_encode (s : List Char) :
    ∀ (acc rest : List Char), (∀ c ∈ s, ¬(c = ',' ∨ c = '\n')) →
      (rest = [] ∨ rest.head? = Option.some ',' ∨ rest.head? = Option.some '\n') →
      parseUField acc (s ++ rest) = (String.mk (acc ++ s), rest) := by
  induction s with
  | nil =>
    intro acc rest _ hr
    rcases hr with rfl | hr | hr
    · simp [parseUField]
    · cases rest with
      | nil => simp at hr
      | cons c r =>
        have hc : c = ',' := by simpa using hr
        subst hc
        simp [parseUField]
    · cases rest with
      | nil => simp at hr
      | cons c r =>
        have hc : c = '\n' := by simpa using hr
        subst hc
        simp [parseUField]
  | cons c cs ih =>
    intro acc rest hs hr
    have hc : ¬(c = ',' ∨ c = '\n') := hs c (List.mem_cons_self c cs)
    have hstep : parseUField acc (c :: (cs ++ rest))
        = parseUField (acc ++ [c]) (cs ++ rest) := by
      rw [parseUField.eq_def]
      simp [hc]
    rw [List.cons_append, hstep,
      ih (acc ++ [c]) rest (fun d hd => hs d (List.mem_cons_of_mem c hd)) hr]
    simp

/-- Reading one encoded field gives back the field, whenever what follows is
a delimiter, a line break, or the end of input. -/
theorem parseFieldCsv_encode (s : String) (rest : List Char)
    (hr : rest = [] ∨ rest.head? = Option.some ',' ∨ rest.head? = Option.some '\n') :
    parseFieldCsv (encodeField s ++ rest) = Option.some (s, rest) := by
  by_cases hq : needsQuote s
  · have hrq : rest.head? ≠ Option.some '"' := by
      rcases hr with rfl | h | h
      · simp
      · simp [h]
      · simp [h]
    have hsplit : encodeField s ++ rest
        = '"' :: (escQuotes s.data ++ '"' :: rest) := by
      simp [encodeField, hq, List.append_assoc]
    rw [hsplit]
    have hstep : parseFieldCsv ('"' :: (escQuotes s.data ++ '"' :: rest))
        = parseQField [] (escQuotes s.data ++ '"' :: rest) := by
      simp [parseFieldCsv]
    rw [hstep, parseQField_encode _ _ _ hrq]
    simp
  · have hall : ∀ c ∈ s.data, ¬(c = ',' ∨ c = '"' ∨ c = '\n' ∨ c = '\r') := by
      intro c hcmem hcbad
      apply hq
      simp only [needsQuote, List.any_eq_true]
      refine ⟨c, hcmem, ?_⟩
      rcases hcbad with h | h | h | h <;> simp [h]
    have henc : encodeField s = s.data := by simp [encodeField, hq]
    rw [henc]
    obtain ⟨data⟩ := s
    cases data with
    | nil =>
      simp only [List.nil_append]
      rcases hr with rfl | h | h
      · simp [parseFieldCsv, parseUField]
      · cases rest with
        | nil => simp at h
        | cons c r =>
          have hc : c = ',' := by simpa using h
          subst hc
          simp [parseFieldCsv, parseUField]
      · cases rest with
        | nil => simp at h
        | cons c r =>
          have hc : c = '\n' := by simpa using h
          subst hc
          simp [parseFieldCsv, parseUField]
    | cons c cs =>
      have hcq : ¬(c = '"') := by
        intro hcq
        exact hall c (by simp) (Or.inr (Or.inl hcq))
      have hstep : parseFieldCsv ((c :: cs) ++ rest)
          = Option.some (parseUField [] ((c :: cs) ++ rest)) := by
        rw [List.cons_append]
        simp [parseFieldCsv, hcq]
      have hu := parseUField_encode (c :: cs) [] rest
        (fun d hd hbad => by
          rcases hbad with h | h
          · exact hall d hd (Or.inl h)
          · exact hall d hd (Or.inr (Or.inr (Or.inl h))))
        hr
      rw [hstep, hu]
      simp

/-- A serialized row is at most one character shorter than its field count. -/
theorem encodeRow_length (fields : List String) :
    fields.length ≤ (encodeRow fields).length + 1 := by
  induction fields with
  | nil => simp [encodeRow]
  | cons f fs ih =>
    cases fs with
    | nil => simp [encodeRow]
    | cons g gs =>
      have : encodeRow (f :: g :: gs) = encodeField f ++ ',' :: encodeRow (g :: gs) :=
        rfl
      rw [this]
      simp only [List.length_cons, List.length_append] at ih ⊢
      omega

/-- Reading one encoded row (with its line terminator) gives back the row. -/
theorem parseRowCsv_encode (fields : List String) :
    ∀ (rest : List Char) (fuel : Nat), fields ≠ [] → fields.length ≤ fuel →
      parseRowCsv fuel (encodeRow fields ++ '\n' :: rest)
        = Option.some (fields, rest) := by
  induction fields with
  | nil => intro rest fuel h _; exact absurd rfl h
  | cons f fs ih =>
    intro rest fuel _ hlen
    cases fuel with
    | zero => simp at hlen
    | succ fuel =>
      cases fs with
      | nil =>
        have hf := parseFieldCsv_encode f ('\n' :: rest) (by simp)
        simp only [encodeRow, parseRowCsv]
        rw [hf]
        simp
      | cons g gs =>
        have hsplit : encodeRow (f :: g :: gs) ++ '\n' :: rest
            = encodeField f ++ ',' :: (encodeRow (g :: gs) ++ '\n' :: rest) := by
          simp [encodeRow]
        have hf := parseFieldCsv_encode f (',' :: (encodeRow (g :: gs) ++ '\n' :: rest))
          (by simp)
        simp only [parseRowCsv, hsplit]
        rw [hf]
        have hrec := ih rest fuel (by simp) (by simpa using Nat.le_of_succ_le_succ hlen)
        simp [hrec]

/-- Every serialized record contributes at least its line terminator. -/
theorem encodeLines_length (rows : List (List String)) :
    rows.length ≤ (encodeLines rows).length := by
  induction rows with
  | nil => simp [encodeLines]
  | cons r rs ih =>
    simp only [encodeLines, List.length_cons, List.length_append]
    omega

/-- Reading back a whole serialized document gives back its records, for any
fuel covering the record count. -/
theorem parseCsvRecords_encode (rows : List (List String)) :
    ∀ fuel, (∀ r ∈ rows, r ≠ []) → rows.length ≤ fuel →
      parseCsvRecords fuel (encodeLines rows) = Option.some rows := by
  induction rows with
  | nil =>
    intro fuel _ _
    cases fuel <;> rfl
  | cons r rs ih =>
    intro fuel hne hlen
    cases fuel with
    | zero => simp at hlen
    | succ fuel =>
      have hcs : encodeLines (r :: rs) = encodeRow r ++ '\n' :: encodeLines rs := rfl
      have hnonempty : encodeRow r ++ '\n' :: encodeLines rs ≠ [] := by
        intro h
        exact List.cons_ne_nil _ _ (List.append_eq_nil.mp h).2
      rw [hcs]
      rw [parseCsvRecords.eq_def]
      cases hmatch : encodeRow r ++ '\n' :: encodeLines rs with
      | nil => exact absurd hmatch hnonempty
      | cons c cs =>
        rw [← hmatch]
        have hrow := parseRowCsv_encode r (encodeLines rs)
          ((encodeRow r ++ '\n' :: encodeLines rs).length + 1)
          (hne r (List.mem_cons_self r rs))
          (by
            have h1 := encodeRow_length r
            simp only [List.length_append, List.length_cons]
            omega)
        simp only [hmatch] at hrow ⊢
        rw [hrow]
        have hrec := ih fuel (fun x hx => hne x (List.mem_cons_of_mem r hx))
          (by simpa using Nat.le_of_succ_le_succ hlen)
        simp [hrec]

/-- Mapping the second components of an enumeration is mapping the list. -/
theorem enum_map_snd_comp (f : α → β) (l : List α) :
    l.enum.map (fun p => f p.2) = l.map f := by
  have h := congrArg (List.map f) (List.enum_map_snd l)
  rw [List.map_map] at h
  exact h

/-- `mapAt` preserves length. -/
theorem mapAt_length (f : α → α) :
    ∀ (l : List α) (j : Nat), (mapAt j f l).length = l.length := by
  intro l
  induction l with
  | nil => intro j; simp [mapAt]
  | cons x xs ih =>
    intro j
    cases j with
    | zero => simp [mapAt]
    | succ j => simp [mapAt, ih]

/-- With `index := false`, `to_csv` writes exactly the header line followed
by the stringified rows. -/
theorem to_csv_false_records (df : DataFrame) :
    to_csv df false
      = String.mk (encodeLines
          (df.columns :: df.rows.map (fun row => row.map csvCellText))) := by
  simp only [to_csv, Bool.false_eq_true, if_false, List.nil_append]
  rw [enum_map_snd_comp (fun row => row.map csvCellText) df.rows]

/-- The csv writer's output re-parses to the header and the stringified
cells, for any frame with at least one column and no ragged empty row. -/
theorem csv_write_then_parse (df : DataFrame) (h1 : df.columns ≠ [])
    (h2 : ∀ r ∈ df.rows, r ≠ []) :
    parseCsv (to_csv df false)
      = Option.some (df.columns :: df.rows.map (fun row => row.map csvCellText)) := by
  rw [to_csv_false_records]
  have hrows : ∀ r ∈ (df.columns :: df.rows.map (fun row => row.map csvCellText)),
      r ≠ [] := by
    intro r hr
    rcases List.mem_cons.mp hr with rfl | hr
    · exact h1
    · rcases List.mem_map.mp hr with ⟨row, hrow, rfl⟩
      simpa using h2 row hrow
  have hlen := encodeLines_length
    (df.columns :: df.rows.map (fun row => row.map csvCellText))
  exact parseCsvRecords_encode
    (df.columns :: df.rows.map (fun row => row.map csvCellText))
    ((encodeLines (df.columns :: df.rows.map (fun row => row.map csvCellText))).length
      + 1)
    hrows (by omega)

/-- With `index := false`, `to_excel` writes one sheet: the column names over
the rows, with no index column. -/
theorem to_excel_false_sheet (df : DataFrame) :
    to_excel df false = { sheets := [{ header := df.columns, cells := df.rows }] } := by
  simp only [to_excel, Bool.false_eq_true, if_false, List.nil_append]
  rw [enum_map_snd_comp (fun row => row) df.rows]
  simp

/-! ### Claim theorems: the exporter (C8, C9) and the amended C7 -/

/-- C8: re-parsing an exported csv document yields exactly the original
column headers and, for every cell, the cell's text — in particular a
string-scalar cell comes back verbatim and an integer cell as its decimal
form, so all-scalar columns keep their values; the quoting round trip holds
for arbitrary cell content (commas, quotes, line breaks included). -/
theorem csv_export_roundtrip (df : DataFrame) (h1 : df.columns ≠ [])
    (h2 : ∀ r ∈ df.rows, r ≠ []) :
    parseCsv (to_csv df false)
      = Option.some (df.columns :: df.rows.map (fun row => row.map csvCellText)) ∧
    (∀ s, csvCellText (Option.some (PyValue.str s)) = s) ∧
    (∀ n : Int, csvCellText (Option.some (PyValue.int n)) = intStr n) :=
  ⟨csv_write_then_parse df h1 h2,
   fun _ => by simp [csvCellText, pyStr],
   fun _ => by simp [csvCellText, pyStr]⟩

/-- Witness for C8 on a frame whose only cell needs quoting. -/
theorem csv_export_roundtrip_witness :
    parseCsv (to_csv tinyFrame false) = Option.some [["a"], ["x,y"]] := by
  have h := (csv_export_roundtrip tinyFrame (by simp [tinyFrame])
    (by intro r hr; simp [tinyFrame] at hr; simp [hr])).1
  simpa [tinyFrame, csvCellText, pyStr] using h

/-- C9 (amended): the csv export always produces the text/csv artifact named
mongo_export.csv, its buffer holding the csv serialization positioned at
the start, with header row exactly the column names (no index column); the
Excel export produces the single-sheet workbook artifact (spreadsheet
content type, name mongo_export.xlsx, buffer at the start, header row the
column names, no index column) exactly when every cell is a value openpyxl
can bind — a frame with a nested or ObjectId cell makes the Excel write
raise instead (see the counterexample). -/
theorem export_artifact_formats (df : DataFrame) (h1 : df.columns ≠ [])
    (h2 : ∀ r ∈ df.rows, r ≠ []) :
    exportArtifact df .csv
      = .ok { buffer := { payload := .csvBytes (to_csv df false), pos := 0 }
              mime := "text/csv", fileName := "mongo_export.csv" } ∧
    (∃ body, parseCsv (to_csv df false) = Option.some (df.columns :: body)) ∧
    (df.rows.all (fun row => row.all excelConvertible) = true →
      exportArtifact df .excel
        = .ok { buffer := { payload := .xlsxBytes (to_excel df false), pos := 0 }
                mime :=
                  "application/vnd.openxmlformats-officedocument.spreadsheetml.sheet"
                fileName := "mongo_export.xlsx" }) ∧
    (to_excel df false).sheets = [{ header := df.columns, cells := df.rows }] ∧
    (df.rows.all (fun row => row.all excelConvertible) = false →
      exportArtifact df .excel = .error "Cannot convert to Excel") := by
  refine ⟨rfl, ⟨_, csv_write_then_parse df h1 h2⟩, ?_, ?_, ?_⟩
  · intro hconv
    simp [exportArtifact, to_excel_checked, hconv, seekStart]
  · rw [to_excel_false_sheet]
  · intro hfail
    simp [exportArtifact, to_excel_checked, hfail]

/-- Witness for the amended C9 at a concrete all-scalar frame, exercising
both the csv artifact and the successful Excel path. -/
theorem export_artifact_formats_witness :
    exportArtifact tinyFrame .csv
      = .ok { buffer := { payload := .csvBytes (to_csv tinyFrame false), pos := 0 }
              mime := "text/csv", fileName := "mongo_export.csv" } ∧
    exportArtifact tinyFrame .excel
      = .ok { buffer := { payload := .xlsxBytes (to_excel tinyFrame false), pos := 0 }
              mime :=
                "application/vnd.openxmlformats-officedocument.spreadsheetml.sheet"
              fileName := "mongo_export.xlsx" } := by
  have h := export_artifact_formats tinyFrame (by simp [tinyFrame])
    (by intro r hr; simp [tinyFrame] at hr; simp [hr])
  exact ⟨h.1, h.2.2.1 rfl⟩

/-- C9 counterexample: a Table holding an ObjectId outside the "_id" column
(exactly what `clean_data` leaves behind, per the C7 counterexample) makes
the Excel write raise instead of producing any workbook artifact, and the
whole run on such data with the Excel format ends in an Unclassified
failure with no artifact — refuting "for every Table, export with format
Excel produces a single-sheet workbook ...". -/
theorem excel_export_raises_on_unconvertible_cell :
    exportArtifact refFrame .excel = .error "Cannot convert to Excel" ∧
    exportArtifact refFrame .csv
      = .ok { buffer := { payload := .csvBytes (to_csv refFrame false), pos := 0 }
              mime := "text/csv", fileName := "mongo_export.csv" } ∧
    (run "[]" .excel envRefData).outcome
      = .failure .unclassified "Cannot convert to Excel" :=
  ⟨rfl, rfl, rfl⟩

/-- C7 (amended): only the column named "_id" is rewritten before export:
`clean_data` maps exactly the position of "_id" through `astype(str)`, whose
result is the canonical string form of the cell; both output formats then
carry the cleaned frame — the csv bytes re-parse to its stringified cells
under the original header, and the workbook's single sheet holds its rows
directly.  (Identifier columns under any other name are not rewritten;
see the counterexample.) -/
theorem only_id_column_canonicalized (df : DataFrame)
    (hid : "_id" ∈ df.columns) (h2 : ∀ r ∈ df.rows, r ≠ []) :
    (∀ i row, df.rows.get? i = Option.some row →
      (clean_data df).rows.get? i
        = Option.some (mapAt (df.columns.indexOf "_id") astypeStrCell row)) ∧
    (∀ row : List Cell,
      (mapAt (df.columns.indexOf "_id") astypeStrCell row)[df.columns.indexOf "_id"]?
        = (row[df.columns.indexOf "_id"]?).map astypeStrCell) ∧
    (∀ c, astypeStrCell c = Option.some (PyValue.str (cellStr c))) ∧
    (∀ c, csvCellText (astypeStrCell c) = cellStr c) ∧
    parseCsv (to_csv (clean_data df) false)
      = Option.some (df.columns
          :: (clean_data df).rows.map (fun row => row.map csvCellText)) ∧
    (to_excel (clean_data df) false).sheets
      = [{ header := df.columns, cells := (clean_data df).rows }] := by
  have hcols : (clean_data df).columns = df.columns := by
    simp [clean_data, hid]
  have hrows2 : ∀ r ∈ (clean_data df).rows, r ≠ [] := by
    intro r hr
    simp only [clean_data, hid, if_pos] at hr
    rcases List.mem_map.mp hr with ⟨row, hrow, rfl⟩
    have hl := mapAt_length astypeStrCell row (df.columns.indexOf "_id")
    intro hnil
    rw [hnil] at hl
    exact h2 row hrow (List.eq_nil_of_length_eq_zero (by simpa using hl.symm))
  have h1 : (clean_data df).columns ≠ [] := by
    rw [hcols]
    intro h
    rw [h] at hid
    exact List.not_mem_nil _ hid
  refine ⟨?_, ?_, fun c => rfl,
    fun c => by simp [csvCellText, astypeStrCell, pyStr], ?_, ?_⟩
  · intro i row hrow
    rw [List.get?_eq_getElem?] at hrow
    simp [clean_data, hid, hrow]
  · intro row
    exact mapAt_getElem?_eq astypeStrCell row (df.columns.indexOf "_id")
  · have := csv_write_then_parse (clean_data df) h1 hrows2
    rwa [hcols] at this
  · rw [to_excel_false_sheet, hcols]

/-- Witness for the amended C7 at a concrete one-column "_id" frame. -/
theorem only_id_column_canonicalized_witness :
    (clean_data idFrame).rows.get? 0
      = Option.some (mapAt 0 astypeStrCell [Option.some (PyValue.oid sampleOid)]) :=
  (only_id_column_canonicalized idFrame (by simp [idFrame])
    (by intro r hr; simp [idFrame] at hr; simp [hr])).1
    0 [Option.some (PyValue.oid sampleOid)] rfl

/-! ### The extended decode refines standard decode + bottom-up hook (C3)

The lemmas below relate `parseJValue hook` to `parseJValue plainHook`
followed by `applyTreeWith hook`: the object hook applied during parsing,
as CPython does, computes the same thing as the specification's composed
description (standard decode, then bottom-up conversion), except that a
raising hook can preempt the rest of the parse. -/

/-- A literal token's value is a scalar, fixed by the tree walk. -/
theorem litVal_scalar (hook : Hook) (lit : JLit) :
    applyTreeWith hook (litVal lit) = .ok (litVal lit) := by
  cases lit <;> simp [litVal, applyTreeWith]

/-- A parsed number is a scalar, fixed by the tree walk. -/
theorem parseJNumber_scalar (hook : Hook) (cs : List Char) (p : PyValue × List Char)
    (h : parseJNumber cs = Option.some p) :
    applyTreeWith hook p.1 = .ok p.1 := by
  unfold parseJNumber at h
  repeat' split at h
  all_goals first
    | exact Option.noConfusion h
    | (injection h with h1; subst h1; simp [applyTreeWith])

/-- Walking field values preserves the key list. -/
theorem applyPairsWith_keys (hook : Hook) :
    ∀ (fs gs : List (String × PyValue)), applyPairsWith hook fs = .ok gs →
      gs.map Prod.fst = fs.map Prod.fst := by
  intro fs
  induction fs with
  | nil =>
    intro gs h
    simp only [applyPairsWith, Except.ok.injEq] at h
    subst h
    rfl
  | cons p fs ih =>
    intro gs h
    obtain ⟨k, v⟩ := p
    cases hv : applyTreeWith hook v with
    | error m => simp [applyPairsWith, hv] at h
    | ok w =>
      cases hrest : applyPairsWith hook fs with
      | error m => simp [applyPairsWith, hv, hrest] at h
      | ok gs2 =>
        simp only [applyPairsWith, hv, hrest, Except.ok.injEq] at h
        subst h
        simp [ih gs2 hrest]

/-- Walking commutes with replacing the value at a key. -/
theorem applyPairsWith_replace (hook : Hook) (k : String) (v w : PyValue)
    (hv : applyTreeWith hook v = .ok w) :
    ∀ fs gs, applyPairsWith hook fs = .ok gs →
      applyPairsWith hook (fs.map (fun p => if p.1 = k then (k, v) else p))
        = .ok (gs.map (fun p => if p.1 = k then (k, w) else p)) := by
  intro fs
  induction fs with
  | nil =>
    intro gs h
    simp only [applyPairsWith, Except.ok.injEq] at h
    subst h
    simp [applyPairsWith]
  | cons p fs ih =>
    intro gs h
    obtain ⟨k2, v2⟩ := p
    cases hv2 : applyTreeWith hook v2 with
    | error m => simp [applyPairsWith, hv2] at h
    | ok w2 =>
      cases hrest : applyPairsWith hook fs with
      | error m => simp [applyPairsWith, hv2, hrest] at h
      | ok gs2 =>
        simp only [applyPairsWith, hv2, hrest, Except.ok.injEq] at h
        subst h
        by_cases hk : k2 = k
        · subst hk
          have hh1 : (if ((k2, v2) : String × PyValue).1 = k2 then (k2, v) else (k2, v2))
              = (k2, v) := by simp
          have hh2 : (if ((k2, w2) : String × PyValue).1 = k2 then (k2, w) else (k2, w2))
              = (k2, w) := by simp
          rw [List.map_cons, List.map_cons, hh1, hh2]
          simp [applyPairsWith, hv, ih gs2 hrest]
        · have hh1 : (if ((k2, v2) : String × PyValue).1 = k then (k, v) else (k2, v2))
              = (k2, v2) := by simp [hk]
          have hh2 : (if ((k2, w2) : String × PyValue).1 = k then (k, w) else (k2, w2))
              = (k2, w2) := by simp [hk]
          rw [List.map_cons, List.map_cons, hh1, hh2]
          simp [applyPairsWith, hv2, ih gs2 hrest]

/-- Walking commutes with appending a new pair. -/
theorem applyPairsWith_append_single (hook : Hook) (k : String) (v w : PyValue)
    (hv : applyTreeWith hook v = .ok w) :
    ∀ fs gs, applyPairsWith hook fs = .ok gs →
      applyPairsWith hook (fs ++ [(k, v)]) = .ok (gs ++ [(k, w)]) := by
  intro fs
  induction fs with
  | nil =>
    intro gs h
    simp only [applyPairsWith, Except.ok.injEq] at h
    subst h
    simp [applyPairsWith, hv]
  | cons p fs ih =>
    intro gs h
    obtain ⟨k2, v2⟩ := p
    cases hv2 : applyTreeWith hook v2 with
    | error m => simp [applyPairsWith, hv2] at h
    | ok w2 =>
      cases hrest : applyPairsWith hook fs with
      | error m => simp [applyPairsWith, hv2, hrest] at h
      | ok gs2 =>
        simp only [applyPairsWith, hv2, hrest, Except.ok.injEq] at h
        subst h
        simp [applyPairsWith, hv2, ih gs2 hrest]

/-- Walking commutes with a Python-dict insertion. -/
theorem applyPairsWith_insertField (hook : Hook) (k : String) (v w : PyValue)
    (hv : applyTreeWith hook v = .ok w) (fs gs : List (String × PyValue))
    (h : applyPairsWith hook fs = .ok gs) :
    applyPairsWith hook (insertField fs k v) = .ok (insertField gs k w) := by
  have hkeys := applyPairsWith_keys hook fs gs h
  have hanyiff : ∀ (l : List (String × PyValue)),
      l.any (fun p => p.1 = k) = (l.map Prod.fst).any (fun x => x = k) := by
    intro l
    induction l with
    | nil => rfl
    | cons p l ihl => simp [List.any_cons, ihl]
  by_cases hany : fs.any (fun p => p.1 = k) = true
  · have hany2 : gs.any (fun p => p.1 = k) = true := by
      rw [hanyiff, hkeys, ← hanyiff]
      exact hany
    simp only [insertField, hany, hany2, if_pos]
    exact applyPairsWith_replace hook k v w hv fs gs h
  · have hany2 : ¬(gs.any (fun p => p.1 = k) = true) := by
      rw [hanyiff, hkeys, ← hanyiff]
      exact hany
    simp only [insertField, hany, hany2, if_neg, Bool.false_eq_true, not_false_iff]
    exact applyPairsWith_append_single hook k v w hv fs gs h

/-- Walking commutes with building the dict from the raw pair list: values
overwritten by a duplicate key disappear on both sides. -/
theorem applyPairsWith_foldl_insert (hook : Hook) :
    ∀ (ps qs : List (String × PyValue)), applyPairsWith hook ps = .ok qs →
      ∀ acc acc', applyPairsWith hook acc = .ok acc' →
        applyPairsWith hook (ps.foldl (fun fs p => insertField fs p.1 p.2) acc)
          = .ok (qs.foldl (fun fs p => insertField fs p.1 p.2) acc') := by
  intro ps
  induction ps with
  | nil =>
    intro qs h acc acc' hacc
    simp only [applyPairsWith, Except.ok.injEq] at h
    subst h
    simpa using hacc
  | cons p ps ih =>
    intro qs h acc acc' hacc
    obtain ⟨k, v⟩ := p
    cases hv : applyTreeWith hook v with
    | error m => simp [applyPairsWith, hv] at h
    | ok w =>
      cases hrest : applyPairsWith hook ps with
      | error m => simp [applyPairsWith, hv, hrest] at h
      | ok qs2 =>
        simp only [applyPairsWith, hv, hrest, Except.ok.injEq] at h
        subst h
        simp only [List.foldl_cons]
        exact ih qs2 hrest _ _
          (applyPairsWith_insertField hook k v w hv acc acc' hacc)

/-- `dictOfPairs` version of the commutation. -/
theorem applyPairsWith_dictOfPairs (hook : Hook) (ps qs : List (String × PyValue))
    (h : applyPairsWith hook ps = .ok qs) :
    applyPairsWith hook (dictOfPairs ps) = .ok (dictOfPairs qs) :=
  applyPairsWith_foldl_insert hook ps qs h [] [] (by simp [applyPairsWith])

mutual
/-- Hooked parsing against plain parsing, one value: either a raising hook
preempts the parse with its error, or the hooked result is exactly the
bottom-up walk of the plainly parsed value (with the same remaining input). -/
theorem parseJValue_hooked (hook : Hook) :
    ∀ (fuel : Nat) (cs : List Char) (v : PyValue) (rest : List Char),
      parseJValue plainHook fuel cs = .ok (v, rest) →
      (∃ m, parseJValue hook fuel cs = .error (.hookErr m)) ∨
      (∃ w, applyTreeWith hook v = .ok w ∧ parseJValue hook fuel cs = .ok (w, rest))
  | 0, cs, v, rest, h => by simp [parseJValue] at h
  | Nat.succ fuel, cs, v, rest, h => by
    cases htok : headTok cs with
    | endTok => simp [parseJValue, htok] at h
    | litTok lit r0 =>
      simp only [parseJValue, htok, Except.ok.injEq, Prod.mk.injEq] at h
      obtain ⟨h1, h2⟩ := h
      subst h1
      subst h2
      right
      exact ⟨litVal lit, litVal_scalar hook lit, by simp [parseJValue, htok]⟩
    | strTok r0 =>
      cases hs : parseJString [] r0 with
      | error e => simp [parseJValue, htok, hs] at h
      | ok p =>
        obtain ⟨s, r2⟩ := p
        simp only [parseJValue, htok, hs, Except.ok.injEq, Prod.mk.injEq] at h
        obtain ⟨h1, h2⟩ := h
        subst h1
        subst h2
        right
        exact ⟨.str s, by simp [applyTreeWith], by simp [parseJValue, htok, hs]⟩
    | arrTok r0 =>
      cases hbr : brTok ']' r0 with
      | close r2 =>
        simp only [parseJValue, htok, hbr, Except.ok.injEq, Prod.mk.injEq] at h
        obtain ⟨h1, h2⟩ := h
        subst h1
        subst h2
        right
        exact ⟨.list [], by simp [applyTreeWith, applyListWith],
          by simp [parseJValue, htok, hbr]⟩
      | content cs2 =>
        cases he : parseJElems plainHook fuel cs2 with
        | error e => simp [parseJValue, htok, hbr, he] at h
        | ok p =>
          obtain ⟨vs, r2⟩ := p
          simp only [parseJValue, htok, hbr, he, Except.ok.injEq, Prod.mk.injEq] at h
          obtain ⟨h1, h2⟩ := h
          subst h1
          subst h2
          rcases parseJElems_hooked hook fuel cs2 vs r2 he with ⟨m, hm⟩ | ⟨ws, hws, hok⟩
          · left
            exact ⟨m, by simp [parseJValue, htok, hbr, hm]⟩
          · right
            exact ⟨.list ws, by simp [applyTreeWith, hws],
              by simp [parseJValue, htok, hbr, hok]⟩
    | objTok r0 =>
      cases hbr : brTok '}' r0 with
      | close r2 =>
        simp only [parseJValue, htok, hbr, liftHook, plainHook,
          Except.ok.injEq, Prod.mk.injEq] at h
        obtain ⟨h1, h2⟩ := h
        subst h1
        subst h2
        cases hh : hook [] with
        | error m =>
          left
          exact ⟨m, by simp [parseJValue, htok, hbr, liftHook, hh]⟩
        | ok w =>
          right
          refine ⟨w, ?_, by simp [parseJValue, htok, hbr, liftHook, hh]⟩
          simp [applyTreeWith, applyPairsWith, hh]
      | content cs2 =>
        cases hms : parseJMembers plainHook fuel cs2 with
        | error e => simp [parseJValue, htok, hbr, hms] at h
        | ok p =>
          obtain ⟨ps, r2⟩ := p
          simp only [parseJValue, htok, hbr, hms, liftHook, plainHook,
            Except.ok.injEq, Prod.mk.injEq] at h
          obtain ⟨h1, h2⟩ := h
          subst h1
          subst h2
          rcases parseJMembers_hooked hook fuel cs2 ps r2 hms with
            ⟨m, hm⟩ | ⟨qs, hqs, hok⟩
          · left
            exact ⟨m, by simp [parseJValue, htok, hbr, hm]⟩
          · have hD := applyPairsWith_dictOfPairs hook ps qs hqs
            cases hh : hook (dictOfPairs qs) with
            | error m =>
              left
              exact ⟨m, by simp [parseJValue, htok, hbr, hok, liftHook, hh]⟩
            | ok w =>
              right
              refine ⟨w, ?_, by simp [parseJValue, htok, hbr, hok, liftHook, hh]⟩
              simp [applyTreeWith, hD, hh]
    | otherTok c r0 =>
      by_cases hcd : (c = '-' ∨ c.isDigit = true)
      · cases hn : parseJNumber (c :: r0) with
        | none =>
          simp only [parseJValue, htok] at h
          rw [if_pos hcd, hn] at h
          simp at h
        | some p =>
          simp only [parseJValue, htok] at h
          rw [if_pos hcd, hn] at h
          simp only [Except.ok.injEq] at h
          subst h
          right
          refine ⟨v, ?_, ?_⟩
          · have := parseJNumber_scalar hook (c :: r0) (v, rest) hn
            simpa using this
          · simp only [parseJValue, htok]
            rw [if_pos hcd, hn]
      · simp only [parseJValue, htok] at h
        rw [if_neg hcd] at h
        simp at h

/-- Hooked parsing against plain parsing, array elements. -/
theorem parseJElems_hooked (hook : Hook) :
    ∀ (fuel : Nat) (cs : List Char) (vs : List PyValue) (rest : List Char),
      parseJElems plainHook fuel cs = .ok (vs, rest) →
      (∃ m, parseJElems hook fuel cs = .error (.hookErr m)) ∨
      (∃ ws, applyListWith hook vs = .ok ws ∧ parseJElems hook fuel cs = .ok (ws, rest))
  | 0, cs, vs, rest, h => by simp [parseJElems] at h
  | Nat.succ fuel, cs, vs, rest, h => by
    cases hv : parseJValue plainHook fuel cs with
    | error e => simp [parseJElems, hv] at h
    | ok p =>
      obtain ⟨v, r⟩ := p
      rcases parseJValue_hooked hook fuel cs v r hv with ⟨m, hm⟩ | ⟨w, hw, hok⟩
      · left
        exact ⟨m, by simp [parseJElems, hm]⟩
      · cases hsep : sepTok ']' r with
        | commaTok r2 =>
          cases he : parseJElems plainHook fuel r2 with
          | error e => simp [parseJElems, hv, hsep, he] at h
          | ok q =>
            obtain ⟨vs2, r3⟩ := q
            simp only [parseJElems, hv, hsep, he, Except.ok.injEq,
              Prod.mk.injEq] at h
            obtain ⟨h1, h2⟩ := h
            subst h1
            subst h2
            rcases parseJElems_hooked hook fuel r2 vs2 r3 he with
              ⟨m2, hm2⟩ | ⟨ws2, hws2, hok2⟩
            · left
              exact ⟨m2, by simp [parseJElems, hok, hsep, hm2]⟩
            · right
              exact ⟨w :: ws2, by simp [applyListWith, hw, hws2],
                by simp [parseJElems, hok, hsep, hok2]⟩
        | closeTok r2 =>
          simp only [parseJElems, hv, hsep, Except.ok.injEq, Prod.mk.injEq] at h
          obtain ⟨h1, h2⟩ := h
          subst h1
          subst h2
          right
          exact ⟨[w], by simp [applyListWith, hw], by simp [parseJElems, hok, hsep]⟩
        | otherSep r2 => simp [parseJElems, hv, hsep] at h

/-- Hooked parsing against plain parsing, object members (raw pair list). -/
theorem parseJMembers_hooked (hook : Hook) :
    ∀ (fuel : Nat) (cs : List Char) (ps : List (String × PyValue)) (rest : List Char),
      parseJMembers plainHook fuel cs = .ok (ps, rest) →
      (∃ m, parseJMembers hook fuel cs = .error (.hookErr m)) ∨
      (∃ qs, applyPairsWith hook ps = .ok qs ∧
        parseJMembers hook fuel cs = .ok (qs, rest))
  | 0, cs, ps, rest, h => by simp [parseJMembers] at h
  | Nat.succ fuel, cs, ps, rest, h => by
    cases cs with
    | nil => simp [parseJMembers] at h
    | cons c r =>
      by_cases hc : c = '"'
      · subst hc
        cases hs : parseJString [] r with
        | error e => simp [parseJMembers, hs] at h
        | ok p =>
          obtain ⟨k, r1⟩ := p
          cases hcol : colTok r1 with
          | otherCol r2 => simp [parseJMembers, hs, hcol] at h
          | colonTok r2 =>
            cases hv : parseJValue plainHook fuel r2 with
            | error e => simp [parseJMembers, hs, hcol, hv] at h
            | ok q =>
              obtain ⟨v, r3⟩ := q
              rcases parseJValue_hooked hook fuel r2 v r3 hv with
                ⟨m, hm⟩ | ⟨w, hw, hok⟩
              · left
                exact ⟨m, by simp [parseJMembers, hs, hcol, hm]⟩
              · cases hsep : sepTok '}' r3 with
                | otherSep r4 => simp [parseJMembers, hs, hcol, hv, hsep] at h
                | closeTok r4 =>
                  simp only [parseJMembers, hs, hcol, hv, hsep, if_true,
                    Except.ok.injEq, Prod.mk.injEq] at h
                  obtain ⟨h1, h2⟩ := h
                  subst h1
                  subst h2
                  right
                  exact ⟨[(k, w)], by simp [applyPairsWith, hw],
                    by simp [parseJMembers, hs, hcol, hok, hsep]⟩
                | commaTok r4 =>
                  cases hrec : parseJMembers plainHook fuel (skipWs r4) with
                  | error e => simp [parseJMembers, hs, hcol, hv, hsep, hrec] at h
                  | ok q2 =>
                    obtain ⟨ps2, r5⟩ := q2
                    simp only [parseJMembers, hs, hcol, hv, hsep, hrec, if_true,
                      Except.ok.injEq, Prod.mk.injEq] at h
                    obtain ⟨h1, h2⟩ := h
                    subst h1
                    subst h2
                    rcases parseJMembers_hooked hook fuel (skipWs r4) ps2 r5 hrec with
                      ⟨m2, hm2⟩ | ⟨qs2, hqs2, hok2⟩
                    · left
                      exact ⟨m2, by simp [parseJMembers, hs, hcol, hok, hsep, hm2]⟩
                    · right
                      exact ⟨(k, w) :: qs2, by simp [applyPairsWith, hw, hqs2],
                        by simp [parseJMembers, hs, hcol, hok, hsep, hok2]⟩
      · simp only [parseJMembers] at h
        rw [if_neg hc] at h
        simp at h
end

/-- C3 (amended): whenever both the standard JSON decode and the extended
decode of app.py line 59 succeed, the extended result is exactly the
standard decode with the object hook applied to every object bottom-up
(`applyHookTree`); under that conversion a dict with no recognized tag
passes through as a plain mapping, a well-formed `$oid` tag becomes the
native ObjectId, and a well-formed `$numberLong` tag becomes the native
int.  (A malformed recognized tag makes the extended decode fail with the
hook's error instead of returning a QueryDocument; see the
counterexample.) -/
theorem extended_parse_refines_standard (s : String) (v w : PyValue)
    (hplain : json_loads s = .ok v) (hhook : json_loads_hook s = .ok w) :
    applyHookTree v = .ok w ∧
    (∀ fs : List (String × PyValue), (∀ k ∈ fs.map Prod.fst, k ∉ parsersSet) →
      object_hook fs = .ok (.dict fs)) ∧
    (∀ hx, isHex24 hx = true →
      object_hook [("$oid", .str hx)] = .ok (.oid (lowerHex hx))) ∧
    (∀ ls n, pyIntOfString ls = Option.some n →
      object_hook [("$numberLong", .str ls)] = .ok (.int n)) := by
  refine ⟨?_, ?_, ?_, ?_⟩
  · unfold json_loads json_loads_with at hplain
    unfold json_loads_hook json_loads_with at hhook
    cases hp : parseJValue plainHook (2 * s.data.length + 2) s.data with
    | error e => rw [hp] at hplain; cases e <;> simp at hplain
    | ok p =>
      obtain ⟨v0, rest0⟩ := p
      rw [hp] at hplain
      dsimp only at hplain
      cases hsk : skipWs rest0 with
      | cons c r => rw [hsk] at hplain; simp at hplain
      | nil =>
        rw [hsk] at hplain
        simp only [Except.ok.injEq] at hplain
        subst hplain
        rcases parseJValue_hooked object_hook (2 * s.data.length + 2) s.data v0 rest0 hp
          with ⟨m, hm⟩ | ⟨w0, hw0, hok⟩
        · rw [hm] at hhook
          simp at hhook
        · rw [hok] at hhook
          dsimp only at hhook
          rw [hsk] at hhook
          simp only [Except.ok.injEq] at hhook
          subst hhook
          exact hw0
  · intro fs hfs
    have hfind : fs.find? (fun p => p.1 ∈ parsersSet) = Option.none := by
      rw [List.find?_eq_none]
      intro p hp
      have := hfs p.1 (List.mem_map.mpr ⟨p, hp, rfl⟩)
      simpa using this
    simp [object_hook, hfind]
  · intro hx hhex
    simp [object_hook, parsersSet, parseOidTag, lookupField, hhex]
  · intro ls n hls
    simp [object_hook, parsersSet, parseLongTag, lookupField, hls]

/-- Witness for the amended C3: the concrete well-formed tagged filter
decodes to the composed result, converting the tag to a native ObjectId. -/
theorem extended_parse_refines_standard_witness :
    applyHookTree
        (.dict [("a", .dict [("$oid", .str "0123456789abcdef01234567")])])
      = .ok (.dict [("a", .oid "0123456789abcdef01234567")]) :=
  (extended_parse_refines_standard goodOidFilter
    (.dict [("a", .dict [("$oid", .str "0123456789abcdef01234567")])])
    (.dict [("a", .oid "0123456789abcdef01234567")]) rfl rfl).1

/-- C3 counterexample: `badHexFilter` is well-formed JSON — the standard
decode succeeds — but the extended parse raises the tag parser's error
instead of returning any QueryDocument, contradicting the claim that every
well-formed JSON filter text parses to a structurally-equal document. -/
theorem wellformed_json_with_bad_tag_no_querydoc :
    json_loads badHexFilter = .ok (.dict [("$oid", .str "zz")]) ∧
    json_loads_hook badHexFilter
      = .error (.hookErr "InvalidId: not a valid ObjectId") ∧
    (Except.error (JErr.hookErr "InvalidId: not a valid ObjectId")
        : Except JErr PyValue)
      ≠ .ok (.dict [("$oid", .str "zz")]) :=
  ⟨rfl, rfl, by simp⟩
